import Mathlib

/-!
Verification of the obsidian-canvas-player plugin core against its
natural-language specification.

The TypeScript source is shallowly embedded:
* `src/rewardCurve.ts` over `ℝ` (the score uses `exp`/`log`), with JS
  `Math.round x` modelled as `⌊x + 1/2⌋` (exact for the non-negative
  scores produced here);
* `src/timingStats.ts` over `ℚ` (only field arithmetic, `min`/`max`,
  sorting), so records are exactly computable;
* the economy ledger, the session-snapshot ownership gate and the
  navigation state machine of the main plugin class as explicit state
  passing over structures; JS objects holding booleans keyed by strings
  become association lists, JS `Array.push`/`pop` become append/last.
-/

namespace CanvasPlayer

/-! ## rewardCurve.ts -/

/-- JS `Math.round` on the non-negative reals produced by the reward
curve: round half up. -/
noncomputable def jsRound (x : ℝ) : ℤ := ⌊x + 1/2⌋

/-- `calculatePoints(elapsedMs, avgMs)` from `src/rewardCurve.ts`.
Constants inlined from the source: `P_MAX = 12`, peak at `0.93`,
minimum ratio `0.60`, sigma `0.18` on the fast side and `0.28` on the
slow side. -/
noncomputable def calculatePoints (elapsedMs avgMs : ℝ) : ℤ :=
  if avgMs ≤ 0 then 0
  else
    let r := elapsedMs / avgMs
    if r < 0.60 then 0
    else
      let x := Real.log r
      let xPeak := Real.log 0.93
      let dx := x - xPeak
      let score : ℝ :=
        if r ≤ 0.93 then Real.exp (-(dx * dx) / (2 * 0.18 * 0.18))
        else Real.exp (-(dx * dx) / (2 * 0.28 * 0.28))
      jsRound (12 * score)

theorem calculatePoints_at_peak (avg : ℝ) (h : 0 < avg) :
    calculatePoints (0.93 * avg) avg = 12 := by
  unfold calculatePoints
  rw [if_neg (not_le.mpr h)]
  have hr : 0.93 * avg / avg = (0.93 : ℝ) := by
    field_simp
  rw [hr]
  simp only [if_neg (by norm_num : ¬ ((0.93:ℝ) < 0.60)), if_pos (le_refl (0.93:ℝ)),
    sub_self]
  norm_num [Real.exp_zero, jsRound]

theorem calculatePoints_at_avg (avg : ℝ) (h : 0 < avg) :
    calculatePoints avg avg = 12 := by
  unfold calculatePoints
  rw [if_neg (not_le.mpr h)]
  have hr : avg / avg = (1 : ℝ) := div_self (ne_of_gt h)
  rw [hr]
  have hlog1 : Real.log 1 = 0 := Real.log_one
  have hlogpos : 0 < -Real.log 0.93 := by
    have : Real.log 0.93 < 0 := Real.log_neg (by norm_num) (by norm_num)
    linarith
  -- the sample sits on the slow branch: r = 1 > 0.93
  have hbranch : ¬ ((1:ℝ) ≤ 0.93) := by norm_num
  have hfast : ¬ ((1:ℝ) < 0.60) := by norm_num
  simp only [hfast, if_false, hbranch, hlog1]
  -- dx = -log 0.93 = log (100/93) ∈ (0, 7/93]
  set dx : ℝ := 0 - Real.log 0.93 with hdx
  have hdx_pos : 0 < dx := by simpa [hdx] using hlogpos
  have hdx_le : dx ≤ 7/93 := by
    have h1 : Real.log 0.93 = - Real.log (100/93) := by
      rw [show (0.93 : ℝ) = (100/93)⁻¹ by norm_num, Real.log_inv]
    have h2 : Real.log (100/93) ≤ 100/93 - 1 :=
      Real.log_le_sub_one_of_pos (by norm_num)
    rw [hdx, h1]
    norm_num at h2 ⊢
    linarith
  set t : ℝ := -(dx * dx) / (2 * 0.28 * 0.28) with ht
  have ht_nonpos : t ≤ 0 := by
    rw [ht]
    apply div_nonpos_of_nonpos_of_nonneg
    · nlinarith
    · norm_num
  have hscore_le : Real.exp t ≤ 1 := Real.exp_le_one_iff.mpr ht_nonpos
  have ht_ge : -(1/24 : ℝ) < t := by
    rw [ht]
    have hsq : dx * dx ≤ (7/93) * (7/93) := by nlinarith
    rw [neg_div, neg_lt_neg_iff, div_lt_iff₀ (by norm_num : (0:ℝ) < 2 * 0.28 * 0.28)]
    nlinarith
  have hscore_ge : (23/24 : ℝ) ≤ Real.exp t := by
    have h1 : t + 1 ≤ Real.exp t := Real.add_one_le_exp t
    linarith
  show jsRound (12 * Real.exp t) = 12
  unfold jsRound
  rw [Int.floor_eq_iff]
  push_cast
  constructor
  · nlinarith
  · nlinarith

/-- C5 counterexample: at `avg = 1`, completing exactly at the average and
completing at 93% of the average both score 12 points, because rounding
`12·score` absorbs the sub-point difference of the bell curve; the claimed
strict inequality `calculatePoints(avg, avg) < calculatePoints(0.93×avg, avg)`
is false. -/
theorem c5_reward_peak_cex :
    ¬ (calculatePoints 1 1 < calculatePoints (0.93 * 1) 1) := by
  rw [calculatePoints_at_avg 1 one_pos, calculatePoints_at_peak 1 one_pos]
  omega

/-- C5 (amended): for every `avg > 0`, `calculatePoints avg avg` and
`calculatePoints (0.93×avg) avg` are both exactly 12 points: the un-rounded
score does peak at 93% of the average, but integer rounding makes completing
exactly at the average score the same 12 points, so the claimed strict
inequality weakens to equality (hence `≤`, never `<`). -/
theorem c5_reward_peak_tie (avg : ℝ) (h : 0 < avg) :
    calculatePoints avg avg = 12 ∧ calculatePoints (0.93 * avg) avg = 12 :=
  ⟨calculatePoints_at_avg avg h, calculatePoints_at_peak avg h⟩

/-- Witness for C5: the amended theorem evaluated at `avg = 1`. -/
theorem c5_reward_peak_tie_witness :
    (0:ℝ) < 1 ∧ calculatePoints 1 1 = 12 ∧ calculatePoints (0.93 * 1) 1 = 12 :=
  ⟨one_pos, c5_reward_peak_tie 1 one_pos⟩

/-- C10: whenever the learned average is non-positive, `calculatePoints`
returns 0 points without ever forming the ratio `elapsedMs / avgMs`: the
division is behind the `avgMs ≤ 0` guard, so a node with no learned average
(or a corrupted zero/negative one) always scores zero. -/
theorem c10_zero_avg_scores_zero (elapsedMs avgMs : ℝ) (h : avgMs ≤ 0) :
    calculatePoints elapsedMs avgMs = 0 := by
  unfold calculatePoints
  rw [if_pos h]

/-- Witness for C10: a concrete call with a zero average. -/
theorem c10_zero_avg_scores_zero_witness :
    (0:ℝ) ≤ 0 ∧ calculatePoints 5 0 = 0 :=
  ⟨le_refl 0, c10_zero_avg_scores_zero 5 0 (le_refl 0)⟩

/-! ## timingStats.ts -/

/-- `RobustTimingData` from `src/timingStats.ts`: learned average, sample
count, and the rolling window of recent completion times. -/
structure RobustTimingData where
  avgMs : ℚ
  samples : ℕ
  historyMs : List ℚ
deriving DecidableEq

/-- JS `[...h].sort((a, b) => a - b)`: the ascending reordering of the
window (unique for a fixed multiset, so any sorting algorithm agrees). -/
def sortAsc (l : List ℚ) : List ℚ := l.insertionSort (· ≤ ·)

/-- `updateRobustAverage(existingTiming, newElapsedMs)` from
`src/timingStats.ts`.  Constants inlined from the source: history capped
at 5, smoothing weight 0.7 on the old average, clamping of new samples
to between 0.5 and 1.75 times the old average. -/
def updateRobustAverage (existingTiming : Option RobustTimingData)
    (newElapsedMs : ℚ) : RobustTimingData :=
  match existingTiming with
  | none =>
    { avgMs := newElapsedMs, samples := 1, historyMs := [newElapsedMs] }
  | some t =>
    let clampedMs : ℚ :=
      if 0 < t.avgMs then max (t.avgMs * 0.5) (min (t.avgMs * 1.75) newElapsedMs)
      else newElapsedMs
    let newHistory0 := t.historyMs ++ [clampedMs]
    let newHistory := if 5 < newHistory0.length then newHistory0.tail else newHistory0
    let center : ℚ :=
      if newHistory.length < 3 then newHistory.sum / (newHistory.length : ℚ)
      else
        let sorted := sortAsc newHistory
        let trimmed := (sorted.drop 1).dropLast
        trimmed.sum / (trimmed.length : ℚ)
    { avgMs := 0.7 * t.avgMs + (1 - 0.7) * center,
      samples := t.samples + 1,
      historyMs := newHistory }

/-- Minimum of a non-empty list (0 for the empty list, never used there). -/
def listMin : List ℚ → ℚ
  | [] => 0
  | x :: xs => xs.foldl min x

/-- Maximum of a non-empty list (0 for the empty list, never used there). -/
def listMax : List ℚ → ℚ
  | [] => 0
  | x :: xs => xs.foldl max x

/-- Spec-side clamp: the new sample clamped into `[0.5×avg, 1.75×avg]`. -/
def clampToWindow (avg x : ℚ) : ℚ := min (max x (0.5 * avg)) (1.75 * avg)

/-- Spec-side cap: keep the newest five entries, dropping the oldest. -/
def capAtFive (l : List ℚ) : List ℚ := l.drop (l.length - 5)

/-- Spec-side robust center: arithmetic mean for windows of fewer than 3
entries, otherwise the trimmed mean — the mean after one minimum and one
maximum are discarded. -/
def robustCenter (l : List ℚ) : ℚ :=
  if l.length < 3 then l.sum / (l.length : ℚ)
  else (l.sum - listMin l - listMax l) / ((l.length : ℚ) - 2)

theorem foldl_min_of_le (a : ℚ) (t : List ℚ) (h : ∀ y ∈ t, a ≤ y) :
    t.foldl min a = a := by
  induction t generalizing a with
  | nil => rfl
  | cons b t' ih =>
    have hab : min a b = a := min_eq_left (h b (by simp))
    simp only [List.foldl_cons, hab]
    exact ih a fun y hy => h y (by simp [hy])

theorem foldl_max_of_ge (a : ℚ) (t : List ℚ) (h : ∀ y ∈ t, y ≤ a) :
    t.foldl max a = a := by
  induction t generalizing a with
  | nil => rfl
  | cons b t' ih =>
    have hab : max a b = a := max_eq_left (h b (by simp))
    simp only [List.foldl_cons, hab]
    exact ih a fun y hy => h y (by simp [hy])

theorem listMin_mem (l : List ℚ) (h : l ≠ []) : listMin l ∈ l := by
  match l with
  | a :: t =>
    clear h
    induction t generalizing a with
    | nil => simp [listMin]
    | cons b t' ih =>
      have hstep : listMin (a :: b :: t') = listMin (min a b :: t') := by
        simp [listMin]
      rw [hstep]
      have hmem := ih (min a b)
      rcases List.mem_cons.mp hmem with h1 | h1
      · rcases min_choice a b with hc | hc
        · rw [h1, hc]; exact List.mem_cons_self a _
        · rw [h1, hc]; exact List.mem_cons_of_mem _ (List.mem_cons_self b _)
      · exact List.mem_cons_of_mem _ (List.mem_cons_of_mem _ h1)

theorem listMin_le (l : List ℚ) : ∀ y ∈ l, listMin l ≤ y := by
  match l with
  | [] => intro y hy; cases hy
  | a :: t =>
    induction t generalizing a with
    | nil => intro y hy; simp at hy; simp [listMin, hy]
    | cons b t' ih =>
      intro y hy
      have hstep : listMin (a :: b :: t') = listMin (min a b :: t') := by
        simp [listMin]
      rw [hstep]
      have hbase : listMin (min a b :: t') ≤ min a b := ih (min a b) (min a b) (by simp)
      rcases List.mem_cons.mp hy with h1 | h1
      · rw [h1]; exact le_trans hbase (min_le_left _ _)
      · rcases List.mem_cons.mp h1 with h2 | h2
        · rw [h2]; exact le_trans hbase (min_le_right _ _)
        · exact ih (min a b) y (by simp [h2])

theorem listMax_mem (l : List ℚ) (h : l ≠ []) : listMax l ∈ l := by
  match l with
  | a :: t =>
    clear h
    induction t generalizing a with
    | nil => simp [listMax]
    | cons b t' ih =>
      have hstep : listMax (a :: b :: t') = listMax (max a b :: t') := by
        simp [listMax]
      rw [hstep]
      have hmem := ih (max a b)
      rcases List.mem_cons.mp hmem with h1 | h1
      · rcases max_choice a b with hc | hc
        · rw [h1, hc]; exact List.mem_cons_self a _
        · rw [h1, hc]; exact List.mem_cons_of_mem _ (List.mem_cons_self b _)
      · exact List.mem_cons_of_mem _ (List.mem_cons_of_mem _ h1)

theorem listMax_ge (l : List ℚ) : ∀ y ∈ l, y ≤ listMax l := by
  match l with
  | [] => intro y hy; cases hy
  | a :: t =>
    induction t generalizing a with
    | nil => intro y hy; simp at hy; simp [listMax, hy]
    | cons b t' ih =>
      intro y hy
      have hstep : listMax (a :: b :: t') = listMax (max a b :: t') := by
        simp [listMax]
      rw [hstep]
      have hbase : max a b ≤ listMax (max a b :: t') := ih (max a b) (max a b) (by simp)
      rcases List.mem_cons.mp hy with h1 | h1
      · rw [h1]; exact le_trans (le_max_left _ _) hbase
      · rcases List.mem_cons.mp h1 with h2 | h2
        · rw [h2]; exact le_trans (le_max_right _ _) hbase
        · exact ih (max a b) y (by simp [h2])

theorem listMin_perm {l l' : List ℚ} (hp : l.Perm l') (h : l ≠ []) :
    listMin l = listMin l' := by
  have h' : l' ≠ [] := fun he => h (List.Perm.eq_nil (he ▸ hp))
  exact le_antisymm
    (listMin_le l _ (hp.mem_iff.mpr (listMin_mem l' h')))
    (listMin_le l' _ (hp.mem_iff.mp (listMin_mem l h)))

theorem listMax_perm {l l' : List ℚ} (hp : l.Perm l') (h : l ≠ []) :
    listMax l = listMax l' := by
  have h' : l' ≠ [] := fun he => h (List.Perm.eq_nil (he ▸ hp))
  exact le_antisymm
    (listMax_ge l' _ (hp.mem_iff.mp (listMax_mem l h)))
    (listMax_ge l _ (hp.mem_iff.mpr (listMax_mem l' h')))

theorem sorted_head_eq_listMin (s : List ℚ) (hs : s.Sorted (· ≤ ·))
    (h : s ≠ []) : listMin s = s.head h := by
  match s with
  | a :: t =>
    simp only [List.head_cons, listMin]
    exact foldl_min_of_le a t (List.sorted_cons.mp hs).1

theorem sorted_getLast_eq_listMax (s : List ℚ) (hs : s.Sorted (· ≤ ·))
    (h : s ≠ []) : s.getLast h = listMax s := by
  match s with
  | [a] => simp [listMax]
  | a :: b :: t =>
    have hab : a ≤ b := (List.sorted_cons.mp hs).1 b (by simp)
    have htail : (b :: t).Sorted (· ≤ ·) := (List.sorted_cons.mp hs).2
    have h1 : (a :: b :: t).getLast h = (b :: t).getLast (by simp) :=
      List.getLast_cons (by simp)
    have h2 : listMax (a :: b :: t) = listMax (b :: t) := by
      simp only [listMax, List.foldl_cons]
      rw [max_eq_right hab]
    rw [h1, h2]
    exact sorted_getLast_eq_listMax (b :: t) htail (by simp)

theorem sum_minus_ends (s : List ℚ) (h2 : 2 ≤ s.length) (hne : s ≠ []) :
    ((s.drop 1).dropLast).sum = s.sum - s.head hne - s.getLast hne := by
  match s with
  | a :: t =>
    have htne : t ≠ [] := by
      intro he
      rw [he] at h2
      simp at h2
    have hsplit : t.dropLast ++ [t.getLast htne] = t :=
      List.dropLast_append_getLast htne
    have hsum : t.sum = t.dropLast.sum + t.getLast htne := by
      conv_lhs => rw [← hsplit]
      simp
    have hlast : (a :: t).getLast hne = t.getLast htne := List.getLast_cons htne
    simp only [List.drop_one, List.tail_cons, List.head_cons, List.sum_cons, hlast]
    linarith

/-- The code's trimmed mean (sorted copy, `slice(1, -1)`) equals the
spec's trimmed mean: drop one minimum and one maximum, average the rest. -/
theorem trimmed_mean_eq (l : List ℚ) (h3 : 3 ≤ l.length) :
    (((sortAsc l).drop 1).dropLast).sum / (((((sortAsc l).drop 1).dropLast).length : ℕ) : ℚ)
      = (l.sum - listMin l - listMax l) / ((l.length : ℚ) - 2) := by
  have hperm : (sortAsc l).Perm l := l.perm_insertionSort (· ≤ ·)
  have hsorted : (sortAsc l).Sorted (· ≤ ·) := l.sorted_insertionSort (· ≤ ·)
  have hlen : (sortAsc l).length = l.length := hperm.length_eq
  have hne : sortAsc l ≠ [] := by
    intro he
    rw [he] at hlen
    simp at hlen
    omega
  have h2 : 2 ≤ (sortAsc l).length := by omega
  have hhead : (sortAsc l).head hne = listMin l := by
    rw [← sorted_head_eq_listMin (sortAsc l) hsorted hne]
    exact listMin_perm hperm hne
  have hlast : (sortAsc l).getLast hne = listMax l := by
    rw [sorted_getLast_eq_listMax _ hsorted hne]
    exact listMax_perm hperm hne
  have hsum : (sortAsc l).sum = l.sum := hperm.sum_eq
  have hnum := sum_minus_ends (sortAsc l) h2 hne
  have hdenom : (((sortAsc l).drop 1).dropLast).length = l.length - 2 := by
    simp only [List.length_dropLast, List.length_drop]
    omega
  rw [hnum, hhead, hlast, hsum, hdenom]
  have hcast : (((l.length - 2 : ℕ)) : ℚ) = (l.length : ℚ) - 2 := by
    rw [Nat.cast_sub (by omega)]
    norm_num
  rw [hcast]

theorem clamp_eq (a x : ℚ) (ha : 0 < a) :
    max (a * 0.5) (min (a * 1.75) x) = clampToWindow a x := by
  unfold clampToWindow
  simp only [min_def, max_def]
  split_ifs <;> linarith

theorem cap_eq (l : List ℚ) (h : l.length ≤ 6) :
    (if 5 < l.length then l.tail else l) = capAtFive l := by
  unfold capAtFive
  by_cases h5 : 5 < l.length
  · rw [if_pos h5]
    have he : l.length - 5 = 1 := by omega
    rw [he, ← List.drop_one]
  · rw [if_neg h5]
    have he : l.length - 5 = 0 := by omega
    rw [he, List.drop_zero]

theorem center_eq (m : List ℚ) :
    (if m.length < 3 then m.sum / (m.length : ℚ)
     else (((sortAsc m).drop 1).dropLast).sum / ((((sortAsc m).drop 1).dropLast).length : ℚ))
      = robustCenter m := by
  unfold robustCenter
  by_cases h : m.length < 3
  · simp [h]
  · simp only [h, if_false]
    exact trimmed_mean_eq m (by omega)

/-- C3: `updateRobustAverage` agrees with the specified algorithm.
With no existing record the result is `{avgMs := x, samples := 1,
historyMs := [x]}`.  With an existing record of positive average and a
window of at most five entries, the new sample is clamped into
`[0.5×avg, 1.75×avg]`, appended to the window which is capped at five by
dropping the oldest entry, the center is the arithmetic mean for fewer
than three entries and otherwise the trimmed mean (one minimum and one
maximum discarded), the new average is `0.7×oldAvg + 0.3×center`, and
`samples` increments by one.  Moreover with `avg = 100` a raw sample of
1000 is merged exactly as if it were 175. -/
theorem c3_updateRobustAverage_spec :
    (∀ x : ℚ, updateRobustAverage none x =
        { avgMs := x, samples := 1, historyMs := [x] }) ∧
    (∀ (t : RobustTimingData) (x : ℚ), 0 < t.avgMs → t.historyMs.length ≤ 5 →
      updateRobustAverage (some t) x =
        { avgMs := 0.7 * t.avgMs
            + 0.3 * robustCenter (capAtFive (t.historyMs ++ [clampToWindow t.avgMs x])),
          samples := t.samples + 1,
          historyMs := capAtFive (t.historyMs ++ [clampToWindow t.avgMs x]) }) ∧
    (∀ t : RobustTimingData, t.avgMs = 100 →
      updateRobustAverage (some t) 1000 = updateRobustAverage (some t) 175) := by
  refine ⟨fun x => rfl, ?_, ?_⟩
  · intro t x hpos hlen
    unfold updateRobustAverage
    simp only [if_pos hpos]
    rw [clamp_eq t.avgMs x hpos]
    rw [cap_eq (t.historyMs ++ [clampToWindow t.avgMs x]) (by simp; omega)]
    rw [center_eq (capAtFive (t.historyMs ++ [clampToWindow t.avgMs x]))]
    simp only [RobustTimingData.mk.injEq]
    norm_num
  · intro t ht
    unfold updateRobustAverage
    simp only [ht]
    norm_num [min_def, max_def]

/-- Witness for C3: the second and third parts evaluated on concrete
records. -/
theorem c3_updateRobustAverage_witness :
    updateRobustAverage (some ⟨100, 3, [(90:ℚ), 100, 110]⟩) 120 =
      { avgMs := 0.7 * 100
          + 0.3 * robustCenter (capAtFive ([(90:ℚ), 100, 110] ++ [clampToWindow 100 120])),
        samples := 3 + 1,
        historyMs := capAtFive ([(90:ℚ), 100, 110] ++ [clampToWindow 100 120]) } ∧
    updateRobustAverage (some ⟨100, 1, [(100:ℚ)]⟩) 1000 =
      updateRobustAverage (some ⟨100, 1, [(100:ℚ)]⟩) 175 :=
  ⟨c3_updateRobustAverage_spec.2.1 ⟨100, 3, [90, 100, 110]⟩ 120 (by norm_num) (by simp),
   c3_updateRobustAverage_spec.2.2 ⟨100, 1, [100]⟩ rfl⟩

/-! ## The economy ledger (transactions, purchases, balance) -/

/-- Transaction types in the economy system. -/
inductive TransactionType where
  | earn
  | spend
deriving DecidableEq

/-- A single transaction in the economy (`Transaction` in the source).
The `id` is the generated `deviceId-timestamp-random` string and
`metadata` is reduced to the optional node/item id it carries. -/
structure Transaction where
  id : String
  type : TransactionType
  amount : ℚ
  timestampMs : ℚ
  metaNodeId : Option String := none
  metaItemId : Option String := none
deriving DecidableEq

/-- Purchase record for a shop item. -/
structure Purchase where
  itemId : String
  purchasedAtMs : ℚ
  txId : String
deriving DecidableEq

/-- Economy state (`EconomyData`).  `transactionsById` is a JS object;
`Object.values` enumerates it in insertion order, so it is embedded as
the insertion-ordered list of transactions.  `purchases` is keyed by
item id. -/
structure EconomyData where
  transactions : List Transaction
  purchases : List (String × Purchase)
  equippedStickerId : String
deriving DecidableEq

/-- `DEFAULT_ECONOMY_DATA` from the source. -/
def DEFAULT_ECONOMY_DATA : EconomyData :=
  { transactions := [], purchases := [], equippedStickerId := "sticker.star" }

/-- The fold inside `calculateBalance`: `+amount` for earn, `-amount`
for spend. -/
def balanceFold : ℚ → List Transaction → ℚ
  | b, [] => b
  | b, tx :: rest =>
    balanceFold (match tx.type with
      | .earn => b + tx.amount
      | .spend => b - tx.amount) rest

/-- JS `Math.max(a, b)` on rationals (written out so that it reduces in
the kernel). -/
def jsMax (a b : ℚ) : ℚ := if a ≤ b then b else a

theorem jsMax_eq_max (a b : ℚ) : jsMax a b = max a b := by
  unfold jsMax
  split_ifs with h
  · exact (max_eq_right h).symm
  · exact (max_eq_left (le_of_not_le h)).symm

/-- `calculateBalance(economy)`: derived, never stored; floored at 0 by
the final `Math.max(0, balance)` safety check. -/
def calculateBalance (economy : EconomyData) : ℚ :=
  jsMax 0 (balanceFold 0 economy.transactions)

/-- `recordEarn(economy, deviceId, points, metadata)`.  The generated
transaction id and `Date.now()` are passed in explicitly.  A thrown
`Error` becomes `.error`; the returned economy is the (un)changed state. -/
def recordEarn (economy : EconomyData) (txId : String) (points nowMs : ℚ)
    (metaNodeId : Option String) : Except String Transaction × EconomyData :=
  if points ≤ 0 then (.error "Points must be positive", economy)
  else
    let tx : Transaction :=
      { id := txId, type := .earn, amount := points, timestampMs := nowMs,
        metaNodeId := metaNodeId }
    (.ok tx, { economy with transactions := economy.transactions ++ [tx] })

/-- `recordSpend(economy, deviceId, itemId, cost)`.  `.ok none` is the
source's `null` (insufficient balance, or item already owned); the
returned economy is the (un)changed state. -/
def recordSpend (economy : EconomyData) (itemId txId : String)
    (cost nowMs : ℚ) : Except String (Option Transaction) × EconomyData :=
  if cost ≤ 0 then (.error "Cost must be positive", economy)
  else if calculateBalance economy < cost then (.ok none, economy)
  else if (economy.purchases.lookup itemId).isSome then (.ok none, economy)
  else
    let tx : Transaction :=
      { id := txId, type := .spend, amount := cost, timestampMs := nowMs,
        metaItemId := some itemId }
    (.ok (some tx),
     { economy with
        transactions := economy.transactions ++ [tx],
        purchases := economy.purchases ++ [(itemId, ⟨itemId, nowMs, txId⟩)] })

/-- Spec-side balance: the sum of earn amounts. -/
def sumEarn (l : List Transaction) : ℚ :=
  ((l.filter (fun tx => tx.type = .earn)).map (fun tx => tx.amount)).sum

/-- Spec-side balance: the sum of spend amounts. -/
def sumSpend (l : List Transaction) : ℚ :=
  ((l.filter (fun tx => tx.type = .spend)).map (fun tx => tx.amount)).sum

theorem balanceFold_eq (l : List Transaction) :
    ∀ b : ℚ, balanceFold b l = b + sumEarn l - sumSpend l := by
  induction l with
  | nil => intro b; simp [balanceFold, sumEarn, sumSpend]
  | cons tx rest ih =>
    intro b
    cases htx : tx.type with
    | earn =>
      simp only [balanceFold, htx, ih, sumEarn, sumSpend, List.filter_cons, htx]
      simp [htx, sumEarn, sumSpend]
      ring
    | spend =>
      simp only [balanceFold, htx, ih, sumEarn, sumSpend, List.filter_cons, htx]
      simp [htx, sumEarn, sumSpend]
      ring

/-- C7: the ledger semantics.  The balance is derived from the
transaction list (never stored) as `Σearn − Σspend` floored at 0;
`earn(5); earn(3); spend(4)` ends with balance 4; a spend whose cost
exceeds the current balance returns `null` and leaves the economy
unchanged; and a second purchase of an already-owned item (at any
positive cost) returns `null` and leaves the economy unchanged. -/
theorem c7_ledger_spec :
    (∀ economy : EconomyData, calculateBalance economy =
        max 0 (sumEarn economy.transactions - sumSpend economy.transactions)) ∧
    (calculateBalance (recordSpend
        (recordEarn (recordEarn DEFAULT_ECONOMY_DATA "t1" 5 0 none).2 "t2" 3 1 none).2
        "item" "t3" 4 2).2 = 4) ∧
    (∀ (economy : EconomyData) (itemId txId : String) (cost nowMs : ℚ),
      calculateBalance economy < cost →
      recordSpend economy itemId txId cost nowMs = (.ok none, economy)) ∧
    (∀ (economy : EconomyData) (itemId txId : String) (cost nowMs : ℚ),
      0 < cost → (economy.purchases.lookup itemId).isSome →
      recordSpend economy itemId txId cost nowMs = (.ok none, economy)) := by
  refine ⟨?_,
    by norm_num [recordEarn, recordSpend, DEFAULT_ECONOMY_DATA, calculateBalance,
      balanceFold, jsMax, List.lookup], ?_, ?_⟩
  · intro economy
    unfold calculateBalance
    rw [jsMax_eq_max, balanceFold_eq, zero_add]
  · intro economy itemId txId cost nowMs h
    have h0 : (0:ℚ) ≤ calculateBalance economy := by
      rw [calculateBalance, jsMax_eq_max]
      exact le_max_left 0 _
    unfold recordSpend
    rw [if_neg (not_le.mpr (lt_of_le_of_lt h0 h)), if_pos h]
  · intro economy itemId txId cost nowMs hc hlook
    unfold recordSpend
    rw [if_neg (not_le.mpr hc)]
    by_cases hbal : calculateBalance economy < cost
    · rw [if_pos hbal]
    · rw [if_neg hbal, if_pos hlook]

/-- Witness for C7: the conditional parts evaluated on concrete
economies — a spend of 5 against a fresh zero-balance economy fails, and
a re-purchase of an already-owned item fails. -/
theorem c7_ledger_witness :
    recordSpend DEFAULT_ECONOMY_DATA "item" "t1" 5 0 =
      (.ok none, DEFAULT_ECONOMY_DATA) ∧
    recordSpend
      { transactions := [{ id := "t1", type := .earn, amount := 5, timestampMs := 0 }],
        purchases := [("itemX", ⟨"itemX", 1, "t2"⟩)],
        equippedStickerId := "sticker.star" } "itemX" "t9" 1 3 =
      (.ok none,
       { transactions := [{ id := "t1", type := .earn, amount := 5, timestampMs := 0 }],
         purchases := [("itemX", ⟨"itemX", 1, "t2"⟩)],
         equippedStickerId := "sticker.star" }) :=
  ⟨c7_ledger_spec.2.2.1 DEFAULT_ECONOMY_DATA "item" "t1" 5 0
      (by norm_num [calculateBalance, DEFAULT_ECONOMY_DATA, balanceFold, jsMax]),
   c7_ledger_spec.2.2.2 _ "itemX" "t9" 1 3 (by norm_num) (by simp [List.lookup])⟩

/-- C9: non-positive amounts are rejected by throwing (`.error`), not by
returning the `null` used for insufficient-balance / already-owned
failures, and the economy is left unchanged. -/
theorem c9_nonpositive_amounts_throw :
    (∀ (economy : EconomyData) (txId : String) (points nowMs : ℚ)
        (metaNodeId : Option String), points ≤ 0 →
      recordEarn economy txId points nowMs metaNodeId =
        (.error "Points must be positive", economy)) ∧
    (∀ (economy : EconomyData) (itemId txId : String) (cost nowMs : ℚ),
      cost ≤ 0 →
      recordSpend economy itemId txId cost nowMs =
        (.error "Cost must be positive", economy)) := by
  constructor
  · intro economy txId points nowMs metaNodeId h
    unfold recordEarn
    rw [if_pos h]
  · intro economy itemId txId cost nowMs h
    unfold recordSpend
    rw [if_pos h]

/-- Witness for C9: `recordEarn` with zero points and `recordSpend` with
a negative cost both throw on a concrete economy. -/
theorem c9_nonpositive_amounts_throw_witness :
    recordEarn DEFAULT_ECONOMY_DATA "t1" 0 7 none =
      (.error "Points must be positive", DEFAULT_ECONOMY_DATA) ∧
    recordSpend DEFAULT_ECONOMY_DATA "item" "t2" (-1) 7 =
      (.error "Cost must be positive", DEFAULT_ECONOMY_DATA) :=
  ⟨c9_nonpositive_amounts_throw.1 DEFAULT_ECONOMY_DATA "t1" 0 7 none (by decide),
   c9_nonpositive_amounts_throw.2 DEFAULT_ECONOMY_DATA "item" "t2" (-1) 7 (by decide)⟩

/-! ## The shared session snapshot and its ownership gate -/

/-- One serialized stack frame inside the persisted snapshot. -/
structure PersistedFrame where
  filePath : String
  currentNodeId : String
  state : List (String × Bool)
deriving DecidableEq

/-- `PersistedActiveSession`: the shared snapshot artifact.
`ownerDeviceId` is optional because legacy snapshots may lack it. -/
structure PersistedActiveSession where
  mode : String
  rootFilePath : String
  currentFilePath : String
  currentNodeId : String
  state : List (String × Bool)
  stack : List PersistedFrame
  historyNodeIds : List String
  timerStartTimeMs : ℚ
  timerDurationMs : ℚ
  ownerDeviceId : Option String
  updatedAtMs : ℚ
  updatedByDeviceId : String
deriving DecidableEq

/-- `isOwnerOfPersistedSession(persisted)`: backward compatibility makes
a snapshot without ownership metadata owned by everyone.  JS
`!persisted.ownerDeviceId` is true for a missing field and for the empty
string. -/
def isOwnerOfPersistedSession (persisted : PersistedActiveSession)
    (deviceId : String) : Bool :=
  match persisted.ownerDeviceId with
  | none => true
  | some o => if o = "" then true else o == deviceId

/-- JS `currentPersisted?.ownerDeviceId || this.deviceId`: the previous
owner if present and non-empty, otherwise this device. -/
def jsOrDeviceId (ownerDeviceId : Option String) (deviceId : String) : String :=
  match ownerDeviceId with
  | none => deviceId
  | some o => if o = "" then deviceId else o

/-- The snapshot content derived from the live session (everything
`saveActiveSessionState` serializes besides the three ownership
fields). -/
structure SessionSnapshotDraft where
  mode : String
  rootFilePath : String
  currentFilePath : String
  currentNodeId : String
  state : List (String × Bool)
  stack : List PersistedFrame
  historyNodeIds : List String
  timerStartTimeMs : ℚ
  timerDurationMs : ℚ
deriving DecidableEq

/-- `saveActiveSessionState(forceOwnership)`, the persist path for a live
session (lines 491-546 of the coordinator): read result of the existing
artifact and the clock are explicit inputs; `none` is the early `return`
that rejects the local mutation, `some` is the snapshot written by the
delete-then-create step. -/
def saveActiveSessionState (currentPersisted : Option PersistedActiveSession)
    (forceOwnership : Bool) (deviceId : String) (now : ℚ)
    (draft : SessionSnapshotDraft) : Option PersistedActiveSession :=
  if (match currentPersisted with
      | some cp => !forceOwnership && !(isOwnerOfPersistedSession cp deviceId)
      | none => false) then none
  else
    some { mode := draft.mode, rootFilePath := draft.rootFilePath,
           currentFilePath := draft.currentFilePath,
           currentNodeId := draft.currentNodeId,
           state := draft.state, stack := draft.stack,
           historyNodeIds := draft.historyNodeIds,
           timerStartTimeMs := draft.timerStartTimeMs,
           timerDurationMs := draft.timerDurationMs,
           ownerDeviceId := some (if forceOwnership then deviceId
             else jsOrDeviceId (currentPersisted.bind (·.ownerDeviceId)) deviceId),
           updatedAtMs := now, updatedByDeviceId := deviceId }

/-- The lease window the specification describes (default 60 s). -/
def leaseWindowMs : ℚ := 60000

/-- The rejection condition as the claim states it: an existing snapshot
owned by a different device AND fresh within the lease window judged
from `updatedAtMs`. -/
def claimRejectsWrite (currentPersisted : Option PersistedActiveSession)
    (deviceId : String) (now : ℚ) : Prop :=
  ∃ cp, currentPersisted = some cp ∧
    cp.ownerDeviceId ≠ none ∧ cp.ownerDeviceId ≠ some deviceId ∧
    now - cp.updatedAtMs < leaseWindowMs

/-- A snapshot owned by another device whose `updatedAtMs` is far
outside the 60-second lease window. -/
def staleSnapshot : PersistedActiveSession :=
  { mode := "modal", rootFilePath := "root.canvas",
    currentFilePath := "root.canvas", currentNodeId := "n1",
    state := [], stack := [], historyNodeIds := [],
    timerStartTimeMs := 0, timerDurationMs := 0,
    ownerDeviceId := some "device-other", updatedAtMs := 0,
    updatedByDeviceId := "device-other" }

/-- A draft snapshot for the local session. -/
def sampleDraft : SessionSnapshotDraft :=
  { mode := "modal", rootFilePath := "root.canvas",
    currentFilePath := "root.canvas", currentNodeId := "n2",
    state := [], stack := [], historyNodeIds := ["n1"],
    timerStartTimeMs := 1000000, timerDurationMs := 0 }

/-- C1 counterexample: the code has no lease window at all.  A snapshot
owned by another device whose `updatedAtMs` is 1000 s old (far beyond
the claimed 60 s lease) still blocks the local, non-forced write —
`saveActiveSessionState` rejects even though the claim's
fresh-and-foreign condition does not hold. -/
theorem c1_ownership_lease_cex :
    saveActiveSessionState (some staleSnapshot) false "device-local" 1000000
        sampleDraft = none ∧
    leaseWindowMs ≤ 1000000 - staleSnapshot.updatedAtMs ∧
    ¬ claimRejectsWrite (some staleSnapshot) "device-local" 1000000 := by
  refine ⟨rfl, by norm_num [leaseWindowMs, staleSnapshot], ?_⟩
  rintro ⟨cp, hcp, -, -, hfresh⟩
  injection hcp with hcp'
  subst hcp'
  norm_num [staleSnapshot, leaseWindowMs] at hfresh

/-- C1 (amended): the persist gate has no freshness component.  A
non-forced write is rejected exactly when the existing snapshot carries
a non-empty `ownerDeviceId` different from the local device — however
old its `updatedAtMs` is; there is no 60-second lease.  When the write
proceeds, the snapshot is stamped `updatedAtMs = now`,
`updatedByDeviceId = self`; a forced ("take over") write unconditionally
claims ownership, a normal write preserves an existing non-empty owner
and otherwise claims ownership for self. -/
theorem c1_ownership_gate (currentPersisted : Option PersistedActiveSession)
    (forceOwnership : Bool) (deviceId : String) (now : ℚ)
    (draft : SessionSnapshotDraft) :
    (saveActiveSessionState currentPersisted forceOwnership deviceId now draft = none ↔
      forceOwnership = false ∧ ∃ cp o, currentPersisted = some cp ∧
        cp.ownerDeviceId = some o ∧ o ≠ "" ∧ o ≠ deviceId) ∧
    (∀ out,
      saveActiveSessionState currentPersisted forceOwnership deviceId now draft = some out →
      out.updatedAtMs = now ∧ out.updatedByDeviceId = deviceId ∧
      (forceOwnership = true → out.ownerDeviceId = some deviceId) ∧
      (forceOwnership = false → ∀ cp o, currentPersisted = some cp →
        cp.ownerDeviceId = some o → o ≠ "" → out.ownerDeviceId = some o) ∧
      (forceOwnership = false →
        (currentPersisted.bind (fun cp => cp.ownerDeviceId) = none ∨
         currentPersisted.bind (fun cp => cp.ownerDeviceId) = some "") →
        out.ownerDeviceId = some deviceId)) := by
  constructor
  · cases currentPersisted with
    | none =>
      simp [saveActiveSessionState]
    | some cp =>
      cases forceOwnership with
      | true => simp [saveActiveSessionState]
      | false =>
        cases howner : cp.ownerDeviceId with
        | none =>
          simp [saveActiveSessionState, isOwnerOfPersistedSession, howner]
        | some o =>
          by_cases ho : o = ""
          · simp [saveActiveSessionState, isOwnerOfPersistedSession, howner, ho]
          · by_cases hd : o = deviceId
            · simp [saveActiveSessionState, isOwnerOfPersistedSession, howner, ho, hd]
            · simp [saveActiveSessionState, isOwnerOfPersistedSession, howner, ho, hd]
  · intro out hout
    rw [saveActiveSessionState.eq_def] at hout
    split at hout
    · exact absurd hout (by simp)
    · injection hout with hout'
      subst hout'
      refine ⟨rfl, rfl, ?_, ?_, ?_⟩
      · intro hf
        simp [hf]
      · intro hf cp o hcp howner ho
        subst hcp
        simp [hf, jsOrDeviceId, howner, ho]
      · intro hf hnone
        rcases hnone with hnone | hnone <;>
          simp [hf, jsOrDeviceId, hnone]

/-- Witness for C1: a non-forced write against a foreign-owned snapshot
is rejected, via the amended gate theorem applied at concrete inputs. -/
theorem c1_ownership_gate_witness :
    saveActiveSessionState (some staleSnapshot) false "device-local" 99
      sampleDraft = none :=
  (c1_ownership_gate (some staleSnapshot) false "device-local" 99 sampleDraft).1.mpr
    ⟨rfl, staleSnapshot, "device-other", rfl, rfl, by decide, by decide⟩

/-! ## The navigation state machine (active session) -/

/-- JS object assignment `state[k] = v`: update in place if the key
exists, otherwise append. -/
def setVar : List (String × Bool) → String → Bool → List (String × Bool)
  | [], k, v => [(k, v)]
  | (k', v') :: rest, k, v =>
    if k' = k then (k', v) :: rest else (k', v') :: setVar rest k v

/-- `LogicEngine.updateState`: apply each `{set:...}` op in order. -/
def updateState (sets : List (String × Bool)) (st : List (String × Bool)) :
    List (String × Bool) :=
  sets.foldl (fun acc p => setVar acc p.1 p.2) st

/-- `StackFrame` (miniPlayerView.ts): the parent canvas context captured
when diving into a nested canvas.  Canvas files and their parsed data
are identified by path/content strings. -/
structure StackFrame where
  file : String
  data : String
  currentNode : String
  state : List (String × Bool)
deriving DecidableEq

/-- `ActiveSession` (the session object of the plugin class). -/
structure ActiveSession where
  rootCanvasFile : String
  currentCanvasFile : String
  currentCanvasData : String
  currentNode : String
  state : List (String × Bool)
  stack : List StackFrame
  history : List String
  timerDurationMs : ℚ
  timerStartTimeMs : Option ℚ
deriving DecidableEq

/-- The plugin-level state the navigation methods touch: the optional
active session, the per-(canvas, node) timing records, the shared
timer's running flag, the timeboxing setting, and the clock.  Snapshot
persistence and the reward payout are I/O side channels modelled by
`saveActiveSessionState` / `recordEarn` above and are not re-modelled
here. -/
structure NavWorld where
  session : Option ActiveSession
  records : List ((String × String) × RobustTimingData)
  timerRunning : Bool
  enableTimeboxing : Bool
  now : ℚ
deriving DecidableEq

/-- `loadTimingForNode`: look up the timing record for (canvas, node). -/
def loadTimingForNode (records : List ((String × String) × RobustTimingData))
    (file node : String) : Option RobustTimingData :=
  records.lookup (file, node)

/-- `saveTimingForNode`: store the updated record for (canvas, node). -/
def saveTimingForNode : List ((String × String) × RobustTimingData) →
    (String × String) → RobustTimingData → List ((String × String) × RobustTimingData)
  | [], k, v => [(k, v)]
  | (k', v') :: rest, k, v =>
    if k' = k then (k', v) :: rest else (k', v') :: saveTimingForNode rest k v

/-- `startTimerForActiveSession`: countdown from the learned average when
one exists (`avgMs > 0`), otherwise a count-up calibration timer. -/
def startTimerForActiveSession (w : NavWorld) : NavWorld :=
  match w.session with
  | none => w
  | some s =>
    if ¬ w.enableTimeboxing then w
    else
      match loadTimingForNode w.records s.currentCanvasFile s.currentNode with
      | some td =>
        if 0 < td.avgMs then
          { w with
              session := some { s with timerDurationMs := td.avgMs,
                                       timerStartTimeMs := some w.now },
              timerRunning := true }
        else
          { w with
              session := some { s with timerDurationMs := 0,
                                       timerStartTimeMs := some w.now },
              timerRunning := true }
      | none =>
        { w with
            session := some { s with timerDurationMs := 0,
                                     timerStartTimeMs := some w.now },
            timerRunning := true }

/-- `finishTimerForActiveSession` (commit): take the elapsed time from
the shared timer (modelled as `now − timerStartTimeMs`), merge it into
the node's record with `updateRobustAverage`, and store it back.  (The
points payout into the economy is the `recordEarn` call modelled
above.) -/
def finishTimerForActiveSession (w : NavWorld) : NavWorld :=
  match w.session with
  | none => w
  | some s =>
    if ¬ w.enableTimeboxing ∨ ¬ w.timerRunning then w
    else
      let elapsedMs := w.now - (match s.timerStartTimeMs with
        | some t0 => t0
        | none => w.now)
      let existingTiming := loadTimingForNode w.records s.currentCanvasFile s.currentNode
      let newTiming := updateRobustAverage existingTiming elapsedMs
      { w with
          records := saveTimingForNode w.records (s.currentCanvasFile, s.currentNode) newTiming,
          timerRunning := false }

/-- `abortTimerForActiveSession` (no commit): stop the shared timer
without touching any timing record. -/
def abortTimerForActiveSession (w : NavWorld) : NavWorld :=
  if ¬ w.enableTimeboxing then w
  else if ¬ w.timerRunning then w
  else { w with timerRunning := false }

/-- `stopActiveSession` (session teardown; the resume-snapshot write and
the shared-artifact clearing are persistence I/O, see
`saveActiveSessionState`). -/
def stopActiveSession (canControl : Bool) (w : NavWorld) : NavWorld :=
  match w.session with
  | none => w
  | some _ =>
    if ¬ canControl then w
    else
      let w1 := abortTimerForActiveSession w
      { w1 with session := none }

/-- `navigateBack`: pop the last entry of `history`, abort the timer for
the node being left (no sample committed), make the popped node current,
and restart a timer for it. `canControl` is the result of the
`assertCanControlAsync` ownership check. -/
def navigateBack (canControl : Bool) (w : NavWorld) : NavWorld :=
  match w.session with
  | none => w
  | some s =>
    if s.history = [] then w
    else if ¬ canControl then w
    else
      match s.history.getLast? with
      | none => w
      | some previousNode =>
        let w1 := abortTimerForActiveSession w
        let w2 := { w1 with
          session := some { s with currentNode := previousNode,
                                   history := s.history.dropLast } }
        if w2.enableTimeboxing then startTimerForActiveSession w2 else w2

/-- `navigateReturnToParent`: finish (commit) the timer of the node
being left, pop the top `StackFrame`, restore the parent canvas, node
and variable state from it verbatim, clear `history`, and start a timer
for the restored node.  With an empty stack this is `stopActiveSession`. -/
def navigateReturnToParent (canControl : Bool) (w : NavWorld) : NavWorld :=
  match w.session with
  | none => stopActiveSession canControl w
  | some s =>
    if s.stack = [] then stopActiveSession canControl w
    else if ¬ canControl then w
    else
      let w1 := if w.enableTimeboxing ∧ w.timerRunning
        then finishTimerForActiveSession w else w
      match w1.session with
      | none => w1
      | some s1 =>
        match s1.stack.getLast? with
        | none => stopActiveSession canControl w1
        | some frame =>
          let w2 := { w1 with
            session := some { s1 with
              currentCanvasFile := frame.file,
              currentCanvasData := frame.data,
              currentNode := frame.currentNode,
              state := frame.state,
              history := [],
              stack := s1.stack.dropLast } }
          if w2.enableTimeboxing then startTimerForActiveSession w2 else w2

/-- `diveIntoCanvasForSession(fileNode)`: push a `StackFrame` capturing
the parent canvas and a copy of the current variable state, reset the
state to the empty scope, load the nested canvas, and continue from its
resolved start node.  `resolved` is the result of link resolution and
start-node search: `(target path, parsed data, start node if found)`;
an unresolvable target leaves the session untouched, and a missing
start node returns to the parent. -/
def diveIntoCanvasForSession (canControl : Bool)
    (resolved : Option (String × String × Option String))
    (fileNodeId : String) (w : NavWorld) : NavWorld :=
  match w.session with
  | none => w
  | some s =>
    match resolved with
    | none => w
    | some (targetFile, nestedData, startNode?) =>
      let s1 : ActiveSession := { s with
        stack := s.stack ++ [{ file := s.currentCanvasFile,
                               data := s.currentCanvasData,
                               currentNode := fileNodeId,
                               state := s.state }],
        state := [],
        currentCanvasFile := targetFile,
        currentCanvasData := nestedData }
      match startNode? with
      | none => navigateReturnToParent canControl { w with session := some s1 }
      | some startNode =>
        let w2 := { w with
          session := some { s1 with currentNode := startNode, history := [] } }
        if w2.enableTimeboxing then startTimerForActiveSession w2 else w2

/-- `navigateToNode(parsedChoice, nextNode)`: finish (commit) the timer
of the node being left, apply the choice's `{set:...}` ops, push the
current node onto `history`, then either dive into a nested canvas or
move to the target node and start its timer. -/
def navigateToNode (canControl : Bool) (parsedSets : List (String × Bool))
    (target : Option (String × String × Option String) ⊕ String)
    (fileNodeId : String) (w : NavWorld) : NavWorld :=
  match w.session with
  | none => w
  | some s =>
    if ¬ canControl then w
    else
      let w1 := if w.enableTimeboxing ∧ w.timerRunning
        then finishTimerForActiveSession w else w
      match w1.session with
      | none => w1
      | some s1 =>
        let w2 := { w1 with
          session := some { s1 with
            state := updateState parsedSets s1.state,
            history := s1.history ++ [s1.currentNode] } }
        match target with
        | .inl resolved => diveIntoCanvasForSession canControl resolved fileNodeId w2
        | .inr nextNodeId =>
          match w2.session with
          | none => w2
          | some s2 =>
            let w3 := { w2 with session := some { s2 with currentNode := nextNodeId } }
            if w3.enableTimeboxing then startTimerForActiveSession w3 else w3

theorem abortTimer_fields (w : NavWorld) :
    (abortTimerForActiveSession w).session = w.session ∧
    (abortTimerForActiveSession w).records = w.records ∧
    (abortTimerForActiveSession w).enableTimeboxing = w.enableTimeboxing ∧
    (abortTimerForActiveSession w).now = w.now := by
  unfold abortTimerForActiveSession
  split_ifs <;> exact ⟨rfl, rfl, rfl, rfl⟩

theorem finishTimer_session (w : NavWorld) :
    (finishTimerForActiveSession w).session = w.session ∧
    (finishTimerForActiveSession w).enableTimeboxing = w.enableTimeboxing ∧
    (finishTimerForActiveSession w).now = w.now := by
  unfold finishTimerForActiveSession
  cases h : w.session with
  | none => exact ⟨h, rfl, rfl⟩
  | some s =>
    split_ifs <;> first
      | exact ⟨h, rfl, rfl⟩
      | exact ⟨rfl, rfl, rfl⟩

theorem startTimer_fields (w : NavWorld) (s : ActiveSession)
    (h : w.session = some s) :
    ∃ s', (startTimerForActiveSession w).session = some s' ∧
      s'.state = s.state ∧ s'.stack = s.stack ∧
      s'.currentNode = s.currentNode ∧
      s'.currentCanvasFile = s.currentCanvasFile ∧
      s'.currentCanvasData = s.currentCanvasData ∧
      s'.history = s.history ∧
      (startTimerForActiveSession w).records = w.records := by
  simp only [startTimerForActiveSession, h]
  by_cases he : w.enableTimeboxing = true
  · rw [if_neg (by simp [he])]
    split
    · split_ifs with ha <;> exact ⟨_, rfl, rfl, rfl, rfl, rfl, rfl, rfl, rfl⟩
    · exact ⟨_, rfl, rfl, rfl, rfl, rfl, rfl, rfl, rfl⟩
  · rw [if_pos (by simp [he])]
    exact ⟨s, h, rfl, rfl, rfl, rfl, rfl, rfl, rfl⟩

/-- C8: `navigateBack` on a session with non-empty history pops the last
history entry into `currentNode`; the timer of the node being left is
aborted, not finished — no sample is committed and the timing records
are untouched; the variable state and the nested-scope stack are not
reverted; and with empty history nothing changes at all. -/
theorem c8_back_semantics :
    (∀ (w : NavWorld) (s : ActiveSession) (canControl : Bool),
      w.session = some s → s.history = [] →
      navigateBack canControl w = w) ∧
    (∀ (w : NavWorld) (s : ActiveSession) (prev : String),
      w.session = some s → s.history.getLast? = some prev →
      (navigateBack true w).session.map ActiveSession.currentNode = some prev ∧
      (navigateBack true w).session.map ActiveSession.history =
        some s.history.dropLast ∧
      (navigateBack true w).session.map ActiveSession.state = some s.state ∧
      (navigateBack true w).session.map ActiveSession.stack = some s.stack ∧
      (navigateBack true w).records = w.records) := by
  constructor
  · intro w s canControl hs hh
    simp [navigateBack, hs, hh]
  · intro w s prev hs hp
    have hne : s.history ≠ [] := by
      intro he
      rw [he] at hp
      simp at hp
    simp only [navigateBack, hs, if_neg hne, hp]
    obtain ⟨ha1, ha2, ha3, ha4⟩ := abortTimer_fields w
    simp only [not_true, if_false]
    by_cases henb : ((abortTimerForActiveSession w).enableTimeboxing) = true
    · rw [if_pos henb]
      obtain ⟨s', hs', hstate, hstack, hnode, hfile, hdata, hhist, hrec⟩ :=
        startTimer_fields
          { abortTimerForActiveSession w with
              session := some { s with currentNode := prev,
                                       history := s.history.dropLast } }
          { s with currentNode := prev, history := s.history.dropLast } rfl
      dsimp only at hs' hrec hstate hstack hnode hhist ⊢
      simp only [hs', hrec, Option.map_some']
      exact ⟨by rw [hnode], by rw [hhist], by rw [hstate], by rw [hstack], ha2⟩
    · rw [if_neg henb]
      exact ⟨rfl, rfl, rfl, rfl, ha2⟩

/-- C2: diving into a nested canvas pushes a `StackFrame` holding the
parent canvas context and a copy of the current variable state and
resets the active scope to the empty state; returning to the parent
restores the canvas, node and the exact variable snapshot stored in the
top frame — whatever the nested scope's state is at return time, it is
discarded.  Together: dive followed by any nested-scope mutation
followed by return yields exactly the dive-time snapshot. -/
theorem c2_scope_isolation :
    (∀ (w : NavWorld) (s : ActiveSession) (canControl : Bool)
        (fileNodeId targetFile nestedData startNode : String),
      w.session = some s →
      (diveIntoCanvasForSession canControl
          (some (targetFile, nestedData, some startNode)) fileNodeId w).session.map
            ActiveSession.state = some [] ∧
      (diveIntoCanvasForSession canControl
          (some (targetFile, nestedData, some startNode)) fileNodeId w).session.map
            ActiveSession.stack =
        some (s.stack ++ [⟨s.currentCanvasFile, s.currentCanvasData,
                           fileNodeId, s.state⟩]) ∧
      (diveIntoCanvasForSession canControl
          (some (targetFile, nestedData, some startNode)) fileNodeId w).session.map
            ActiveSession.currentNode = some startNode ∧
      (diveIntoCanvasForSession canControl
          (some (targetFile, nestedData, some startNode)) fileNodeId w).session.map
            ActiveSession.currentCanvasFile = some targetFile ∧
      (diveIntoCanvasForSession canControl
          (some (targetFile, nestedData, some startNode)) fileNodeId w).session.map
            ActiveSession.history = some ([] : List String)) ∧
    (∀ (w : NavWorld) (s : ActiveSession) (fs : List StackFrame) (f : StackFrame),
      w.session = some s → s.stack = fs ++ [f] →
      (navigateReturnToParent true w).session.map ActiveSession.state =
        some f.state ∧
      (navigateReturnToParent true w).session.map ActiveSession.stack = some fs ∧
      (navigateReturnToParent true w).session.map ActiveSession.currentCanvasFile =
        some f.file ∧
      (navigateReturnToParent true w).session.map ActiveSession.currentNode =
        some f.currentNode ∧
      (navigateReturnToParent true w).session.map ActiveSession.history =
        some ([] : List String)) := by
  constructor
  · intro w s canControl fileNodeId targetFile nestedData startNode hs
    simp only [diveIntoCanvasForSession, hs]
    by_cases henb : w.enableTimeboxing = true
    · rw [if_pos henb]
      obtain ⟨s', hs', hstate, hstack, hnode, hfile, hdata, hhist, hrec⟩ :=
        startTimer_fields
          { w with session := some ({ s with
                stack := s.stack ++ [⟨s.currentCanvasFile, s.currentCanvasData,
                                      fileNodeId, s.state⟩],
                state := [],
                currentCanvasFile := targetFile,
                currentCanvasData := nestedData,
                currentNode := startNode,
                history := [] }) } _ rfl
      dsimp only at hs' hstate hstack hnode hfile hhist ⊢
      simp only [hs', Option.map_some']
      exact ⟨by rw [hstate], by rw [hstack], by rw [hnode], by rw [hfile], by rw [hhist]⟩
    · rw [if_neg henb]
      exact ⟨rfl, rfl, rfl, rfl, rfl⟩
  · intro w s fs f hs hstk
    have hne : s.stack ≠ [] := by
      rw [hstk]
      simp
    simp only [navigateReturnToParent, hs, if_neg hne, not_true, if_false]
    by_cases hft : (w.enableTimeboxing = true ∧ w.timerRunning = true)
    · rw [if_pos hft]
      have hsess1 : (finishTimerForActiveSession w).session = some s :=
        (finishTimer_session w).1.trans hs
      simp only [hsess1, hstk, List.getLast?_concat, List.dropLast_concat]
      by_cases henb2 : (finishTimerForActiveSession w).enableTimeboxing = true
      · rw [if_pos henb2]
        obtain ⟨s', hs', hstate, hstack, hnode, hfile, hdata, hhist, hrec⟩ :=
          startTimer_fields
            { finishTimerForActiveSession w with session := some ({ s with
                  currentCanvasFile := f.file,
                  currentCanvasData := f.data,
                  currentNode := f.currentNode,
                  state := f.state,
                  history := [],
                  stack := fs }) } _ rfl
        dsimp only at hs' hstate hstack hnode hfile hhist ⊢
        simp only [hs', Option.map_some']
        exact ⟨by rw [hstate], by rw [hstack], by rw [hfile], by rw [hnode], by rw [hhist]⟩
      · rw [if_neg henb2]
        exact ⟨rfl, rfl, rfl, rfl, rfl⟩
    · rw [if_neg hft]
      simp only [hs, hstk, List.getLast?_concat, List.dropLast_concat]
      by_cases henb2 : w.enableTimeboxing = true
      · rw [if_pos henb2]
        obtain ⟨s', hs', hstate, hstack, hnode, hfile, hdata, hhist, hrec⟩ :=
          startTimer_fields
            { w with session := some ({ s with
                  currentCanvasFile := f.file,
                  currentCanvasData := f.data,
                  currentNode := f.currentNode,
                  state := f.state,
                  history := [],
                  stack := fs }) } _ rfl
        dsimp only at hs' hstate hstack hnode hfile hhist ⊢
        simp only [hs', Option.map_some']
        exact ⟨by rw [hstate], by rw [hstack], by rw [hfile], by rw [hnode], by rw [hhist]⟩
      · rw [if_neg henb2]
        exact ⟨rfl, rfl, rfl, rfl, rfl⟩

/-- A concrete parent session sitting inside a nested canvas: the stack
holds one frame with the parent's variable snapshot, while the nested
scope has its own mutated state. -/
def nestedSampleSession : ActiveSession :=
  { rootCanvasFile := "root.canvas", currentCanvasFile := "nested.canvas",
    currentCanvasData := "nestedData", currentNode := "n5",
    state := [("inner", true)],
    stack := [⟨"root.canvas", "rootData", "ref1", [("hasKey", true)]⟩],
    history := ["n4"], timerDurationMs := 0, timerStartTimeMs := none }

/-- A concrete world around `nestedSampleSession` with timeboxing off. -/
def nestedSampleWorld : NavWorld :=
  { session := some nestedSampleSession, records := [], timerRunning := false,
    enableTimeboxing := false, now := 0 }

/-- Witness for C2: returning to the parent from `nestedSampleWorld`
restores the dive-time snapshot `[("hasKey", true)]`, discarding the
nested mutation `[("inner", true)]`. -/
theorem c2_scope_isolation_witness :
    (navigateReturnToParent true nestedSampleWorld).session.map
        ActiveSession.state = some [("hasKey", true)] ∧
    (navigateReturnToParent true nestedSampleWorld).session.map
        ActiveSession.stack = some [] ∧
    (navigateReturnToParent true nestedSampleWorld).session.map
        ActiveSession.currentCanvasFile = some "root.canvas" ∧
    (navigateReturnToParent true nestedSampleWorld).session.map
        ActiveSession.currentNode = some "ref1" ∧
    (navigateReturnToParent true nestedSampleWorld).session.map
        ActiveSession.history = some ([] : List String) := by
  have h := c2_scope_isolation.2 nestedSampleWorld nestedSampleSession []
    ⟨"root.canvas", "rootData", "ref1", [("hasKey", true)]⟩ rfl rfl
  simpa using h

/-- A concrete session one step past the start node. -/
def backSampleSession : ActiveSession :=
  { rootCanvasFile := "root.canvas", currentCanvasFile := "root.canvas",
    currentCanvasData := "rootData", currentNode := "b",
    state := [("x", true)], stack := [], history := ["a"],
    timerDurationMs := 0, timerStartTimeMs := none }

/-- A concrete world around `backSampleSession`. -/
def backSampleWorld : NavWorld :=
  { session := some backSampleSession, records := [], timerRunning := true,
    enableTimeboxing := false, now := 0 }

/-- Witness for C8: going back from `backSampleWorld` restores node "a",
keeps the variable state, and leaves the (empty) timing records
untouched. -/
theorem c8_back_semantics_witness :
    (navigateBack true backSampleWorld).session.map
        ActiveSession.currentNode = some "a" ∧
    (navigateBack true backSampleWorld).session.map
        ActiveSession.history = some ([] : List String) ∧
    (navigateBack true backSampleWorld).session.map
        ActiveSession.state = some [("x", true)] ∧
    (navigateBack true backSampleWorld).session.map
        ActiveSession.stack = some ([] : List StackFrame) ∧
    (navigateBack true backSampleWorld).records = [] := by
  have h := c8_back_semantics.2 backSampleWorld backSampleSession "a" rfl rfl
  simpa using h

/-! ## logic.ts: label parsing and the expression engine -/

/-- The regex character class `[a-zA-Z0-9_]`. -/
def isIdentChar (c : Char) : Bool := c.isAlpha || c.isDigit || c = '_'

/-- The single-character operator tokens of the expression tokenizer. -/
def isOpChar (c : Char) : Bool :=
  c = '&' || c = '|' || c = '!' || c = '(' || c = ')'

/-- The regex class `\s` on the label alphabet. -/
def jsSpace (c : Char) : Bool := c.isWhitespace

/-- Tokens of `ExpressionParser.tokenize`: single-character operators,
identifiers (`x` or `x=true`), and `IDENTIFIER_FALSE` (`x=false`). -/
inductive Token where
  | op (c : Char)
  | ident (s : String)
  | identFalse (s : String)
deriving DecidableEq

/-- `ExpressionParser.tokenize`: skip whitespace, single-char operators,
then a maximal identifier run optionally followed by a literal `=true`
or `=false` (the regex `[a-zA-Z0-9_]+(?:=(?:true|false))?`); any other
character is skipped. -/
def tokenize (cs : List Char) : List Token :=
  match cs with
  | [] => []
  | c :: rest =>
    if jsSpace c then tokenize rest
    else if isOpChar c then .op c :: tokenize rest
    else if h : isIdentChar c then
      match hafter : (c :: rest).dropWhile isIdentChar with
      | '=' :: 't' :: 'r' :: 'u' :: 'e' :: r =>
        .ident (String.mk ((c :: rest).takeWhile isIdentChar)) :: tokenize r
      | '=' :: 'f' :: 'a' :: 'l' :: 's' :: 'e' :: r =>
        .identFalse (String.mk ((c :: rest).takeWhile isIdentChar)) :: tokenize r
      | aft => .ident (String.mk ((c :: rest).takeWhile isIdentChar)) :: tokenize aft
    else tokenize rest
termination_by cs.length
decreasing_by
  all_goals simp only [List.length_cons]
  all_goals
    first
      | omega
      | (have hd : (List.dropWhile isIdentChar rest).length ≤ rest.length :=
           (rest.dropWhile_sublist isIdentChar).length_le
         simp only [List.dropWhile_cons, h, if_true] at hafter
         first
           | (rw [hafter] at hd; simp at hd; omega)
           | (rw [← hafter]; omega))

/-- Try to match the regex `\{set:([a-zA-Z0-9_]+)=(true|false)\}` at the
start of `cs`; on success return the captured variable, the boolean, and
the suffix after the match. -/
def matchSet (cs : List Char) : Option (String × Bool × List Char) :=
  match cs with
  | '\x7b' :: 's' :: 'e' :: 't' :: ':' :: rest =>
    let name := rest.takeWhile isIdentChar
    if name.isEmpty then none
    else
      match rest.dropWhile isIdentChar with
      | '=' :: 't' :: 'r' :: 'u' :: 'e' :: '\x7d' :: suffix =>
        some (String.mk name, true, suffix)
      | '=' :: 'f' :: 'a' :: 'l' :: 's' :: 'e' :: '\x7d' :: suffix =>
        some (String.mk name, false, suffix)
      | _ => none
  | _ => none

/-- Try to match `\{if:([^}]+)\}` at the start of `cs`; on success return
the captured expression body and the suffix after the match. -/
def matchIf (cs : List Char) : Option (List Char × List Char) :=
  match cs with
  | '\x7b' :: 'i' :: 'f' :: ':' :: rest =>
    let body := rest.takeWhile (fun c => c ≠ '\x7d')
    if body.isEmpty then none
    else
      match rest.dropWhile (fun c => c ≠ '\x7d') with
      | '\x7d' :: suffix => some (body, suffix)
      | _ => none
  | _ => none

/-- The global-regex scan of `parseLabel` for `{set:...}` tags: collect
every match left to right and delete the matched spans (this is the
`exec` loop plus the `replace(setRegex, '')` on the same string).  The
fuel is at least the character count, and every step consumes at least
one character. -/
def scanSets : Nat → List Char → List (String × Bool) × List Char
  | _, [] => ([], [])
  | 0, cs => ([], cs)
  | fuel + 1, c :: cs =>
    match matchSet (c :: cs) with
    | some (name, val, suffix) =>
      let p := scanSets fuel suffix
      ((name, val) :: p.1, p.2)
    | none =>
      let p := scanSets fuel cs
      (p.1, c :: p.2)

/-- The global-regex scan for `{if:...}` tags, analogous to `scanSets`. -/
def scanIfs : Nat → List Char → List (List Char) × List Char
  | _, [] => ([], [])
  | 0, cs => ([], cs)
  | fuel + 1, c :: cs =>
    match matchIf (c :: cs) with
    | some (body, suffix) =>
      let p := scanIfs fuel suffix
      (body :: p.1, p.2)
    | none =>
      let p := scanIfs fuel cs
      (p.1, c :: p.2)

/-- JS `String.trim()`. -/
def jsTrim (cs : List Char) : List Char :=
  ((cs.dropWhile jsSpace).reverse.dropWhile jsSpace).reverse

/-- Drop later duplicates, keeping first occurrences (the JS `Set`
insertion order of `extractVariables`). -/
def dedupKeepFirst : List String → List String
  | [] => []
  | x :: xs => x :: dedupKeepFirst (xs.filter (fun y => y ≠ x))
termination_by l => l.length
decreasing_by
  simp only [List.length_cons]
  exact Nat.lt_succ_of_le (xs.length_filter_le _)

/-- `ExpressionParser.extractVariables`: every identifier occurring in
the tokenized expression, de-duplicated in insertion order. -/
def extractVariables (expr : String) : List String :=
  dedupKeepFirst ((tokenize expr.data).filterMap fun t =>
    match t with
    | .ident s => some s
    | .identFalse s => some s
    | .op _ => none)

/-- `ParsedLabel` from `src/logic.ts`. -/
structure ParsedLabel where
  text : String
  sets : List (String × Bool)
  expression : Option String
  dependencies : List String
deriving DecidableEq

/-- `LogicEngine.parseLabel`: extract the `{set:...}` tags and strip
them, then extract the `{if:...}` tags from the stripped text and strip
them; each `{if:...}` body is parenthesized and the bodies are joined
with `" & "`. -/
def parseLabel (label : String) : ParsedLabel :=
  let cs := label.data
  let p1 := scanSets cs.length cs
  let t1 := jsTrim p1.2
  let p2 := scanIfs t1.length t1
  let t2 := jsTrim p2.2
  let expression : Option String :=
    if p2.1.isEmpty then none
    else some (String.intercalate " & "
      (p2.1.map fun body => "(" ++ String.mk body ++ ")"))
  { text := String.mk t2,
    sets := p1.1,
    expression := expression,
    dependencies := match expression with
      | some e => extractVariables e
      | none => [] }

theorem matchSet_ne (c : Char) (cs : List Char) (h : c ≠ '\x7b') :
    matchSet (c :: cs) = none := by
  unfold matchSet
  split
  · rename_i x heq
    simp at heq
    exact absurd heq.1 h
  · rfl

theorem matchIf_ne (c : Char) (cs : List Char) (h : c ≠ '\x7b') :
    matchIf (c :: cs) = none := by
  unfold matchIf
  split
  · rename_i x heq
    simp at heq
    exact absurd heq.1 h
  · rfl

theorem scanSets_no_brace : ∀ (cs : List Char) (fuel : Nat),
    '\x7b' ∉ cs → scanSets fuel cs = ([], cs) := by
  intro cs
  induction cs with
  | nil => intro fuel h; cases fuel <;> rfl
  | cons c cs' ih =>
    intro fuel h
    have hc : c ≠ '\x7b' := by
      intro he
      exact h (by rw [he]; exact List.mem_cons_self _ _)
    have h' : '\x7b' ∉ cs' := fun hm => h (List.mem_cons_of_mem _ hm)
    cases fuel with
    | zero => rfl
    | succ f =>
      simp only [scanSets, matchSet_ne c cs' hc, ih f h']

theorem scanIfs_no_brace : ∀ (cs : List Char) (fuel : Nat),
    '\x7b' ∉ cs → scanIfs fuel cs = ([], cs) := by
  intro cs
  induction cs with
  | nil => intro fuel h; cases fuel <;> rfl
  | cons c cs' ih =>
    intro fuel h
    have hc : c ≠ '\x7b' := by
      intro he
      exact h (by rw [he]; exact List.mem_cons_self _ _)
    have h' : '\x7b' ∉ cs' := fun hm => h (List.mem_cons_of_mem _ hm)
    cases fuel with
    | zero => rfl
    | succ f =>
      simp only [scanIfs, matchIf_ne c cs' hc, ih f h']

theorem jsTrim_no_brace (cs : List Char) (h : '\x7b' ∉ cs) :
    '\x7b' ∉ jsTrim cs := by
  intro hmem
  apply h
  unfold jsTrim at hmem
  rw [List.mem_reverse] at hmem
  have h1 := (List.dropWhile_sublist (l := (cs.dropWhile jsSpace).reverse)
    jsSpace).subset hmem
  rw [List.mem_reverse] at h1
  exact (List.dropWhile_sublist (l := cs) jsSpace).subset h1

theorem parseLabel_no_brace (s : String) (h : '\x7b' ∉ s.data) :
    (parseLabel s).sets = [] ∧ (parseLabel s).expression = none := by
  unfold parseLabel
  simp only [scanSets_no_brace s.data s.data.length h,
    scanIfs_no_brace _ _ (jsTrim_no_brace s.data h), List.isEmpty_nil, if_pos]
  exact ⟨trivial, trivial⟩

/-- C6 counterexample: `parseLabel` is not idempotent on its own
`displayText`.  On the label `{set{set:a=true}:b=true}` only the inner
`{set:a=true}` is recognized; removing it splices the surrounding
characters into the brand-new tag `{set:b=true}`, which survives in the
displayText, so re-parsing yields a non-empty `sets` list. -/
theorem c6_parseLabel_idempotent_cex :
    (parseLabel "\x7bset\x7bset:a=true\x7d:b=true\x7d").text
        = "\x7bset:b=true\x7d" ∧
    (parseLabel ((parseLabel "\x7bset\x7bset:a=true\x7d:b=true\x7d").text)).sets
        = [("b", true)] ∧
    (parseLabel ((parseLabel "\x7bset\x7bset:a=true\x7d:b=true\x7d").text)).sets
        ≠ [] := by
  refine ⟨?_, ?_, ?_⟩ <;> decide

/-- C6 (amended): `parseLabel` is idempotent on its own `displayText`
for every label whose displayText no longer contains a left brace (in
particular, whenever tag removal splices no new `{...}` tag together):
re-parsing such a displayText yields no `setOps` and no expression. -/
theorem c6_parseLabel_idempotent (label : String)
    (h : '\x7b' ∉ (parseLabel label).text.data) :
    (parseLabel ((parseLabel label).text)).sets = [] ∧
    (parseLabel ((parseLabel label).text)).expression = none :=
  parseLabel_no_brace _ h

/-- Witness for C6: a label with one `{set:...}` and one `{if:...}` tag
strips to a brace-free displayText, whose re-parse is empty. -/
theorem c6_parseLabel_idempotent_witness :
    (parseLabel ((parseLabel "\x7bset:a=true\x7d\x7bif:b\x7d Go").text)).sets = [] ∧
    (parseLabel ((parseLabel "\x7bset:a=true\x7d\x7bif:b\x7d Go").text)).expression
      = none :=
  c6_parseLabel_idempotent "\x7bset:a=true\x7d\x7bif:b\x7d Go" (by decide)

/-- `!!state[x]` on the variable-state object: a variable not present
reads as false. -/
def lookupVar (state : List (String × Bool)) (x : String) : Bool :=
  (state.lookup x).getD false

theorem lexNat {a b i j : Nat} (h : a ≤ b) (hij : i < j) :
    Prod.Lex (· < ·) (· < ·) (a, i) (b, j) := by
  rcases lt_or_eq_of_le h with h1 | h1
  · exact Prod.Lex.left _ _ h1
  · subst h1
    exact Prod.Lex.right _ hij

theorem lexNatL {a b : Nat} (i j : Nat) (h : a < b) :
    Prod.Lex (· < ·) (· < ·) (a, i) (b, j) :=
  Prod.Lex.left _ _ h

/-! The recursive-descent evaluator of `ExpressionParser.parseExpression`
(`parseE`/`parseT`/`parseF` with the mutable cursor `pos` turned into
explicit remaining-token lists; the `while` loops become `parseELoop` /
`parseTLoop`).  Each function returns the value and the remaining tokens
together with the bound that parsing never grows the input, which the
termination argument needs. -/

mutual

def parseE (st : List (String × Bool)) (ts : List Token) :
    Bool × {r : List Token // r.length ≤ ts.length} :=
  match parseT st ts with
  | (v, ⟨r1, hr1⟩) =>
    match parseELoop st v r1 with
    | (w, ⟨r2, hr2⟩) => (w, ⟨r2, le_trans hr2 hr1⟩)
termination_by (ts.length, 4)
decreasing_by
  all_goals try simp_wf
  all_goals
    first
      | exact lexNat (by omega) (by omega)
      | exact lexNatL _ _ (by omega)
      | exact lexNatL _ _ (by simp only [List.length_cons]; omega)

def parseELoop (st : List (String × Bool)) (left : Bool) (ts : List Token) :
    Bool × {r : List Token // r.length ≤ ts.length} :=
  match ts with
  | Token.op '|' :: rest =>
    match parseT st rest with
    | (v, ⟨r1, hr1⟩) =>
      match parseELoop st (left || v) r1 with
      | (w, ⟨r2, hr2⟩) =>
        (w, ⟨r2, by simp only [List.length_cons]; omega⟩)
  | other => (left, ⟨other, le_refl _⟩)
termination_by (ts.length, 3)
decreasing_by
  all_goals try simp_wf
  all_goals
    first
      | exact lexNat (by omega) (by omega)
      | exact lexNatL _ _ (by omega)
      | exact lexNatL _ _ (by simp only [List.length_cons]; omega)

def parseT (st : List (String × Bool)) (ts : List Token) :
    Bool × {r : List Token // r.length ≤ ts.length} :=
  match parseF st ts with
  | (v, ⟨r1, hr1⟩) =>
    match parseTLoop st v r1 with
    | (w, ⟨r2, hr2⟩) => (w, ⟨r2, le_trans hr2 hr1⟩)
termination_by (ts.length, 2)
decreasing_by
  all_goals try simp_wf
  all_goals
    first
      | exact lexNat (by omega) (by omega)
      | exact lexNatL _ _ (by omega)
      | exact lexNatL _ _ (by simp only [List.length_cons]; omega)

def parseTLoop (st : List (String × Bool)) (left : Bool) (ts : List Token) :
    Bool × {r : List Token // r.length ≤ ts.length} :=
  match ts with
  | Token.op '&' :: rest =>
    match parseF st rest with
    | (v, ⟨r1, hr1⟩) =>
      match parseTLoop st (left && v) r1 with
      | (w, ⟨r2, hr2⟩) =>
        (w, ⟨r2, by simp only [List.length_cons]; omega⟩)
  | other => (left, ⟨other, le_refl _⟩)
termination_by (ts.length, 1)
decreasing_by
  all_goals try simp_wf
  all_goals
    first
      | exact lexNat (by omega) (by omega)
      | exact lexNatL _ _ (by omega)
      | exact lexNatL _ _ (by simp only [List.length_cons]; omega)

def parseF (st : List (String × Bool)) (ts : List Token) :
    Bool × {r : List Token // r.length ≤ ts.length} :=
  match ts with
  | [] => (true, ⟨[], le_refl _⟩)
  | Token.op '!' :: rest =>
    match parseF st rest with
    | (v, ⟨r1, hr1⟩) => (!v, ⟨r1, by simp only [List.length_cons]; omega⟩)
  | Token.op '(' :: rest =>
    match parseE st rest with
    | (v, ⟨r1, hr1⟩) =>
      match r1, hr1 with
      | Token.op ')' :: r2, hr1 =>
        (v, ⟨r2, by simp only [List.length_cons] at hr1 ⊢; omega⟩)
      | other, hr1 =>
        (v, ⟨other, by simp only [List.length_cons] at hr1 ⊢; omega⟩)
  | Token.ident s :: rest => (lookupVar st s, ⟨rest, by simp⟩)
  | Token.identFalse s :: rest => (!(lookupVar st s), ⟨rest, by simp⟩)
  | Token.op c :: rest => (false, ⟨rest, by simp⟩)
termination_by (ts.length, 0)
decreasing_by
  all_goals try simp_wf
  all_goals
    first
      | exact lexNat (by omega) (by omega)
      | exact lexNatL _ _ (by omega)
      | exact lexNatL _ _ (by simp only [List.length_cons]; omega)

end

/-- `ExpressionParser.evaluate(expr, state)`. -/
def evaluate (expr : String) (state : List (String × Bool)) : Bool :=
  (parseE state (tokenize expr.data)).1

theorem identChar_facts (c : Char) (h : isIdentChar c = true) :
    jsSpace c = false ∧ isOpChar c = false ∧ c ≠ '=' := by
  simp only [isIdentChar, Bool.or_eq_true, decide_eq_true_eq] at h
  have hv : (65 ≤ c.val.toNat ∧ c.val.toNat ≤ 90) ∨ (97 ≤ c.val.toNat ∧ c.val.toNat ≤ 122) ∨
      (48 ≤ c.val.toNat ∧ c.val.toNat ≤ 57) ∨ c.val.toNat = 95 := by
    rcases h with (h | h) | h
    · simp only [Char.isAlpha, Char.isUpper, Char.isLower, Bool.or_eq_true,
        Bool.and_eq_true, decide_eq_true_eq, Char.le_def] at h
      rcases h with ⟨h1, h2⟩ | ⟨h1, h2⟩
      · exact Or.inl ⟨h1, h2⟩
      · exact Or.inr (Or.inl ⟨h1, h2⟩)
    · simp only [Char.isDigit, Bool.and_eq_true, decide_eq_true_eq, Char.le_def] at h
      exact Or.inr (Or.inr (Or.inl h))
    · rw [h]
      exact Or.inr (Or.inr (Or.inr rfl))
  refine ⟨?_, ?_, ?_⟩
  · simp only [jsSpace, Char.isWhitespace, Bool.or_eq_false_iff, decide_eq_false_iff_not]
    refine ⟨⟨⟨?_, ?_⟩, ?_⟩, ?_⟩ <;> (intro he; rw [he] at hv; revert hv; decide)
  · simp only [isOpChar, Bool.or_eq_false_iff, decide_eq_false_iff_not]
    refine ⟨⟨⟨⟨?_, ?_⟩, ?_⟩, ?_⟩, ?_⟩ <;> (intro he; rw [he] at hv; revert hv; decide)
  · intro he
    rw [he] at hv
    revert hv
    decide

/-- The three precedence levels of the specified grammar. -/
inductive GLvl where
  | expr
  | term
  | factor
deriving DecidableEq

/-- The specified grammar, one constructor per production
(`Expr := Term ['|' Expr]`, `Term := Factor ['&' Term]`,
`Factor := '!' Factor | '(' Expr ')' | Ident['='bool]` — the bracketed
right recursion generates exactly the `{'|' Term}` / `{'&' Factor}`
iterations of the specification). -/
inductive Gram : GLvl → Type where
  | orE (t : Gram .term) (e : Gram .expr) : Gram .expr
  | termE (t : Gram .term) : Gram .expr
  | andT (f : Gram .factor) (t : Gram .term) : Gram .term
  | factorT (f : Gram .factor) : Gram .term
  | notF (f : Gram .factor) : Gram .factor
  | parenF (e : Gram .expr) : Gram .factor
  | varF (s : String) : Gram .factor
  | varTrueF (s : String) : Gram .factor
  | varFalseF (s : String) : Gram .factor

/-- Print a sentence of the grammar back to its source text. -/
def printG : {l : GLvl} → Gram l → List Char
  | _, .orE t e => printG t ++ '|' :: printG e
  | _, .termE t => printG t
  | _, .andT f t => printG f ++ '&' :: printG t
  | _, .factorT f => printG f
  | _, .notF f => '!' :: printG f
  | _, .parenF e => '(' :: (printG e ++ [')'])
  | _, .varF s => s.data
  | _, .varTrueF s => s.data ++ ('=' :: 't' :: 'r' :: 'u' :: 'e' :: [])
  | _, .varFalseF s => s.data ++ ('=' :: 'f' :: 'a' :: 'l' :: 's' :: 'e' :: [])

/-- The specified semantics: `|` is disjunction, `&` conjunction, `!`
negation, an identifier alone means "variable is true", `x=false` means
"variable is false", and an absent variable reads as false. -/
def evalG (st : List (String × Bool)) : {l : GLvl} → Gram l → Bool
  | _, .orE t e => evalG st t || evalG st e
  | _, .termE t => evalG st t
  | _, .andT f t => evalG st f && evalG st t
  | _, .factorT f => evalG st f
  | _, .notF f => !(evalG st f)
  | _, .parenF e => evalG st e
  | _, .varF s => lookupVar st s
  | _, .varTrueF s => lookupVar st s
  | _, .varFalseF s => !(lookupVar st s)

/-- The token list a sentence should tokenize to. -/
def toksG : {l : GLvl} → Gram l → List Token
  | _, .orE t e => toksG t ++ Token.op '|' :: toksG e
  | _, .termE t => toksG t
  | _, .andT f t => toksG f ++ Token.op '&' :: toksG t
  | _, .factorT f => toksG f
  | _, .notF f => Token.op '!' :: toksG f
  | _, .parenF e => Token.op '(' :: (toksG e ++ [Token.op ')'])
  | _, .varF s => [Token.ident s]
  | _, .varTrueF s => [Token.ident s]
  | _, .varFalseF s => [Token.identFalse s]

/-- An identifier of the grammar: non-empty, over `[a-zA-Z0-9_]`. -/
def validIdent (s : String) : Bool :=
  !s.data.isEmpty && s.data.all isIdentChar

/-- Well-formedness: every identifier in the sentence is valid. -/
def wfG : {l : GLvl} → Gram l → Bool
  | _, .orE t e => wfG t && wfG e
  | _, .termE t => wfG t
  | _, .andT f t => wfG f && wfG t
  | _, .factorT f => wfG f
  | _, .notF f => wfG f
  | _, .parenF e => wfG e
  | _, .varF s => validIdent s
  | _, .varTrueF s => validIdent s
  | _, .varFalseF s => validIdent s

theorem opChar_facts (c : Char) (h : isOpChar c = true) :
    jsSpace c = false ∧ isIdentChar c = false ∧ c ≠ '=' := by
  simp only [isOpChar, Bool.or_eq_true, decide_eq_true_eq] at h
  rcases h with ((((h|h)|h)|h)|h) <;> subst h <;> refine ⟨by decide, by decide, by decide⟩

/-- Tokenizing from an operator character. -/
theorem tokenize_op (c : Char) (h : isOpChar c = true) (cs : List Char) :
    tokenize (c :: cs) = Token.op c :: tokenize cs := by
  conv_lhs => simp only [tokenize]
  rw [if_neg (by simp [(opChar_facts c h).1]), if_pos h]

/-- `rest` does not begin with an identifier character or `'='`, so the
maximal identifier run and the `=true/=false` lookahead stop exactly at
the boundary. -/
def identBoundary (rest : List Char) : Prop :=
  ∀ c r', rest = c :: r' → (isIdentChar c = false ∧ c ≠ '=')

theorem takeWhile_ident_append (name rest : List Char)
    (hall : ∀ c ∈ name, isIdentChar c = true)
    (hrest : ∀ c r', rest = c :: r' → isIdentChar c = false) :
    (name ++ rest).takeWhile isIdentChar = name ∧
    (name ++ rest).dropWhile isIdentChar = rest := by
  induction name with
  | nil =>
    simp only [List.nil_append]
    cases hr : rest with
    | nil => simp
    | cons c r' =>
      rw [List.takeWhile_cons, List.dropWhile_cons, hrest c r' hr]
      simp
  | cons c n' ih =>
    have hc : isIdentChar c = true := hall c (by simp)
    rw [List.cons_append, List.takeWhile_cons, List.dropWhile_cons, hc]
    have := ih (fun d hd => hall d (by simp [hd]))
    simp only [if_true]
    exact ⟨by rw [this.1], by rw [this.2]⟩

theorem tokenize_ident_plain (name rest : List Char) (hne : name ≠ [])
    (hall : ∀ c ∈ name, isIdentChar c = true) (hb : identBoundary rest) :
    tokenize (name ++ rest) = Token.ident (String.mk name) :: tokenize rest := by
  match name with
  | c :: n' =>
    have hc : isIdentChar c = true := hall c (by simp)
    obtain ⟨hsp, hop, -⟩ := identChar_facts c hc
    obtain ⟨htake, hdrop⟩ := takeWhile_ident_append (c :: n') rest hall
      (fun d r' hr => (hb d r' hr).1)
    rw [List.cons_append] at htake hdrop
    rw [List.cons_append]
    conv_lhs => simp only [tokenize]
    rw [if_neg (by simp [hsp]), if_neg (by simp [hop]), dif_pos hc]
    cases hr : rest with
    | nil =>
      subst hr
      split
      · rename_i r heq
        rw [hdrop] at heq
        cases heq
      · rename_i r heq
        rw [hdrop] at heq
        cases heq
      · rw [htake, hdrop]
    | cons c2 r2 =>
      have hc2 : c2 ≠ '=' := (hb c2 r2 hr).2
      subst hr
      split
      · rename_i r heq
        rw [hdrop] at heq
        injection heq with h1 h2
        exact absurd h1 hc2
      · rename_i r heq
        rw [hdrop] at heq
        injection heq with h1 h2
        exact absurd h1 hc2
      · rw [htake, hdrop]

theorem tokenize_ident_true (name rest : List Char) (hne : name ≠ [])
    (hall : ∀ c ∈ name, isIdentChar c = true) :
    tokenize (name ++ '=' :: 't' :: 'r' :: 'u' :: 'e' :: rest) =
      Token.ident (String.mk name) :: tokenize rest := by
  match name with
  | c :: n' =>
    have hc : isIdentChar c = true := hall c (by simp)
    obtain ⟨hsp, hop, -⟩ := identChar_facts c hc
    obtain ⟨htake, hdrop⟩ := takeWhile_ident_append (c :: n')
      ('=' :: 't' :: 'r' :: 'u' :: 'e' :: rest) hall
      (fun d r' hr => by injection hr with h1 h2; subst h1; decide)
    rw [List.cons_append] at htake hdrop
    rw [List.cons_append]
    conv_lhs => simp only [tokenize]
    rw [if_neg (by simp [hsp]), if_neg (by simp [hop]), dif_pos hc]
    split
    · rename_i r heq
      rw [hdrop] at heq
      injection heq with h1 heq
      injection heq with h2 heq
      injection heq with h3 heq
      injection heq with h4 heq
      injection heq with h5 heq
      subst heq
      rw [htake]
    · rename_i r heq
      rw [hdrop] at heq
      injection heq with h1 heq
      injection heq with h2 heq
      exact absurd h2 (by decide)
    · rename_i heq1 heq2
      exact absurd hdrop (heq1 rest)

theorem tokenize_ident_false (name rest : List Char) (hne : name ≠ [])
    (hall : ∀ c ∈ name, isIdentChar c = true) :
    tokenize (name ++ '=' :: 'f' :: 'a' :: 'l' :: 's' :: 'e' :: rest) =
      Token.identFalse (String.mk name) :: tokenize rest := by
  match name with
  | c :: n' =>
    have hc : isIdentChar c = true := hall c (by simp)
    obtain ⟨hsp, hop, -⟩ := identChar_facts c hc
    obtain ⟨htake, hdrop⟩ := takeWhile_ident_append (c :: n')
      ('=' :: 'f' :: 'a' :: 'l' :: 's' :: 'e' :: rest) hall
      (fun d r' hr => by injection hr with h1 h2; subst h1; decide)
    rw [List.cons_append] at htake hdrop
    rw [List.cons_append]
    conv_lhs => simp only [tokenize]
    rw [if_neg (by simp [hsp]), if_neg (by simp [hop]), dif_pos hc]
    split
    · rename_i r heq
      rw [hdrop] at heq
      injection heq with h1 heq
      injection heq with h2 heq
      exact absurd h2 (by decide)
    · rename_i r heq
      rw [hdrop] at heq
      injection heq with h1 heq
      injection heq with h2 heq
      injection heq with h3 heq
      injection heq with h4 heq
      injection heq with h5 heq
      injection heq with h6 heq
      subst heq
      rw [htake]
    · rename_i heq1 heq2
      exact absurd hdrop (heq2 rest)

/-- What may follow a printed sub-sentence: nothing, or an operator
character (`|`, `&`, `)` in practice). -/
def opBoundary (rest : List Char) : Prop :=
  rest = [] ∨ ∃ c r', rest = c :: r' ∧ isOpChar c = true

theorem opBoundary_identBoundary (rest : List Char) (h : opBoundary rest) :
    identBoundary rest := by
  intro c r' hr
  rcases h with h | ⟨c2, r2, hr2, hop⟩
  · rw [h] at hr
    cases hr
  · rw [hr2] at hr
    injection hr with h1 h2
    subst h1
    exact ⟨(opChar_facts c2 hop).2.1, (opChar_facts c2 hop).2.2⟩

theorem validIdent_facts (s : String) (h : validIdent s = true) :
    s.data ≠ [] ∧ ∀ c ∈ s.data, isIdentChar c = true := by
  simp only [validIdent, Bool.and_eq_true, Bool.not_eq_true', List.isEmpty_eq_false,
    List.all_eq_true, decide_eq_true_eq] at h
  exact ⟨h.1, h.2⟩

/-- Tokenizer correctness on printed sentences of the grammar: the
tokens of `printG g` followed by a boundary are exactly `toksG g`
followed by the tokens of the boundary. -/
theorem tokenize_printG {l : GLvl} (g : Gram l) :
    ∀ rest : List Char, wfG g = true → opBoundary rest →
    tokenize (printG g ++ rest) = toksG g ++ tokenize rest := by
  induction g with
  | orE t e iht ihe =>
    intro rest hwf hb
    simp only [wfG, Bool.and_eq_true] at hwf
    simp only [printG, toksG]
    rw [List.append_assoc, List.cons_append]
    rw [iht ('|' :: (printG e ++ rest)) hwf.1
      (Or.inr ⟨'|', printG e ++ rest, rfl, by decide⟩)]
    rw [tokenize_op '|' (by decide)]
    rw [ihe rest hwf.2 hb]
    simp [List.append_assoc]
  | termE t iht =>
    intro rest hwf hb
    simp only [wfG] at hwf
    simp only [printG, toksG]
    exact iht rest hwf hb
  | andT f t ihf iht =>
    intro rest hwf hb
    simp only [wfG, Bool.and_eq_true] at hwf
    simp only [printG, toksG]
    rw [List.append_assoc, List.cons_append]
    rw [ihf ('&' :: (printG t ++ rest)) hwf.1
      (Or.inr ⟨'&', printG t ++ rest, rfl, by decide⟩)]
    rw [tokenize_op '&' (by decide)]
    rw [iht rest hwf.2 hb]
    simp [List.append_assoc]
  | factorT f ihf =>
    intro rest hwf hb
    simp only [wfG] at hwf
    simp only [printG, toksG]
    exact ihf rest hwf hb
  | notF f ihf =>
    intro rest hwf hb
    simp only [wfG] at hwf
    simp only [printG, toksG, List.cons_append]
    rw [tokenize_op '!' (by decide)]
    rw [ihf rest hwf hb]
  | parenF e ihe =>
    intro rest hwf hb
    simp only [wfG] at hwf
    simp only [printG, toksG, List.cons_append]
    rw [tokenize_op '(' (by decide)]
    rw [List.append_assoc, List.cons_append, List.nil_append]
    rw [ihe (')' :: rest) hwf (Or.inr ⟨')', rest, rfl, by decide⟩)]
    rw [tokenize_op ')' (by decide)]
    simp [List.append_assoc]
  | varF s =>
    intro rest hwf hb
    simp only [wfG] at hwf
    obtain ⟨hne, hall⟩ := validIdent_facts s hwf
    simp only [printG, toksG]
    rw [tokenize_ident_plain s.data rest hne hall (opBoundary_identBoundary rest hb)]
    rfl
  | varTrueF s =>
    intro rest hwf hb
    simp only [wfG] at hwf
    obtain ⟨hne, hall⟩ := validIdent_facts s hwf
    simp only [printG, toksG]
    rw [List.append_assoc, List.cons_append, List.cons_append, List.cons_append,
      List.cons_append, List.cons_append, List.nil_append]
    rw [tokenize_ident_true s.data rest hne hall]
    rfl
  | varFalseF s =>
    intro rest hwf hb
    simp only [wfG] at hwf
    obtain ⟨hne, hall⟩ := validIdent_facts s hwf
    simp only [printG, toksG]
    rw [List.append_assoc, List.cons_append, List.cons_append, List.cons_append,
      List.cons_append, List.cons_append, List.cons_append, List.nil_append]
    rw [tokenize_ident_false s.data rest hne hall]
    rfl

/-- The token list does not begin with `|` (so the or-loop stops). -/
def noBar (ts : List Token) : Prop := ∀ r', ts ≠ Token.op '|' :: r'

/-- The token list does not begin with `&` (so the and-loop stops). -/
def noAmp (ts : List Token) : Prop := ∀ r', ts ≠ Token.op '&' :: r'

theorem parseELoop_end (st : List (String × Bool)) (acc : Bool) (ts : List Token)
    (h : noBar ts) :
    (parseELoop st acc ts).1 = acc ∧ (parseELoop st acc ts).2.1 = ts := by
  rw [parseELoop.eq_def]
  split
  · exact absurd rfl (h _)
  · exact ⟨rfl, rfl⟩

theorem parseTLoop_end (st : List (String × Bool)) (acc : Bool) (ts : List Token)
    (h : noAmp ts) :
    (parseTLoop st acc ts).1 = acc ∧ (parseTLoop st acc ts).2.1 = ts := by
  rw [parseTLoop.eq_def]
  split
  · exact absurd rfl (h _)
  · exact ⟨rfl, rfl⟩

/-- Accumulator form of `toksG`: the token list of a sentence, followed by a
continuation, with the concatenation fused so every unfolding is definitional. -/
def toksA : {l : GLvl} → Gram l → List Token → List Token
  | _, .orE t e, rest => toksA t (Token.op '|' :: toksA e rest)
  | _, .termE t, rest => toksA t rest
  | _, .andT f t, rest => toksA f (Token.op '&' :: toksA t rest)
  | _, .factorT f, rest => toksA f rest
  | _, .notF f, rest => Token.op '!' :: toksA f rest
  | _, .parenF e, rest => Token.op '(' :: toksA e (Token.op ')' :: rest)
  | _, .varF s, rest => Token.ident s :: rest
  | _, .varTrueF s, rest => Token.ident s :: rest
  | _, .varFalseF s, rest => Token.identFalse s :: rest

theorem toksA_eq {l : GLvl} (g : Gram l) :
    ∀ rest : List Token, toksA g rest = toksG g ++ rest := by
  induction g with
  | orE t e iht ihe =>
    intro rest
    simp only [toksA, toksG, iht, ihe, List.append_assoc, List.cons_append]
  | termE t iht => intro rest; simp only [toksA, toksG, iht]
  | andT f t ihf iht =>
    intro rest
    simp only [toksA, toksG, ihf, iht, List.append_assoc, List.cons_append]
  | factorT f ihf => intro rest; simp only [toksA, toksG, ihf]
  | notF f ihf => intro rest; simp only [toksA, toksG, ihf, List.cons_append]
  | parenF e ihe =>
    intro rest
    simp only [toksA, toksG, ihe, List.append_assoc, List.cons_append,
      List.singleton_append, List.nil_append]
  | varF s => intro rest; simp only [toksA, toksG, List.singleton_append]
  | varTrueF s => intro rest; simp only [toksA, toksG, List.singleton_append]
  | varFalseF s => intro rest; simp only [toksA, toksG, List.singleton_append]

/-- Correctness statement for the parser, by grammar level: parsing the
tokens of a sentence followed by a stopper computes the sentence's
semantics and leaves exactly the stopper; for `expr` and `term` additionally
the loop form (`'|' sentence` / `'&' sentence`) folds correctly. -/
def GramStmt (st : List (String × Bool)) : {l : GLvl} → Gram l → Prop
  | .expr, e =>
    (∀ rest : List Token, noBar rest → noAmp rest →
      (parseE st (toksA e rest)).1 = evalG st e ∧
      (parseE st (toksA e rest)).2.1 = rest) ∧
    (∀ (acc : Bool) (rest : List Token), noBar rest → noAmp rest →
      (parseELoop st acc (Token.op '|' :: toksA e rest)).1 =
        (acc || evalG st e) ∧
      (parseELoop st acc (Token.op '|' :: toksA e rest)).2.1 = rest)
  | .term, t =>
    (∀ rest : List Token, noAmp rest →
      (parseT st (toksA t rest)).1 = evalG st t ∧
      (parseT st (toksA t rest)).2.1 = rest) ∧
    (∀ (acc : Bool) (rest : List Token), noAmp rest →
      (parseTLoop st acc (Token.op '&' :: toksA t rest)).1 =
        (acc && evalG st t) ∧
      (parseTLoop st acc (Token.op '&' :: toksA t rest)).2.1 = rest)
  | .factor, f =>
    ∀ rest : List Token,
      (parseF st (toksA f rest)).1 = evalG st f ∧
      (parseF st (toksA f rest)).2.1 = rest

theorem noAmp_bar (r : List Token) : noAmp (Token.op '|' :: r) := by
  intro r' hcon
  simp at hcon

theorem parserOK (st : List (String × Bool)) {l : GLvl} (g : Gram l) :
    GramStmt st g := by
  induction g with
  | orE t e iht ihe =>
    constructor
    · intro rest hnb hna
      simp only [toksA, evalG]
      simp only [parseE]
      rw [(iht.1 (Token.op '|' :: toksA e rest) (noAmp_bar _)).1,
        (iht.1 (Token.op '|' :: toksA e rest) (noAmp_bar _)).2]
      exact ihe.2 (evalG st t) rest hnb hna
    · intro acc rest hnb hna
      simp only [toksA, evalG]
      simp only [parseELoop]
      rw [(iht.1 (Token.op '|' :: toksA e rest) (noAmp_bar _)).1,
        (iht.1 (Token.op '|' :: toksA e rest) (noAmp_bar _)).2]
      have h2 := ihe.2 (acc || evalG st t) rest hnb hna
      rw [h2.1, h2.2]
      simp [Bool.or_assoc]
  | termE t iht =>
    constructor
    · intro rest hnb hna
      simp only [toksA, evalG]
      simp only [parseE]
      rw [(iht.1 rest hna).1, (iht.1 rest hna).2]
      exact parseELoop_end st (evalG st t) rest hnb
    · intro acc rest hnb hna
      simp only [toksA, evalG]
      simp only [parseELoop]
      rw [(iht.1 rest hna).1, (iht.1 rest hna).2]
      exact parseELoop_end st (acc || evalG st t) rest hnb
  | andT f t ihf iht =>
    constructor
    · intro rest hna
      simp only [toksA, evalG]
      simp only [parseT]
      rw [(ihf (Token.op '&' :: toksA t rest)).1,
        (ihf (Token.op '&' :: toksA t rest)).2]
      exact iht.2 (evalG st f) rest hna
    · intro acc rest hna
      simp only [toksA, evalG]
      simp only [parseTLoop]
      rw [(ihf (Token.op '&' :: toksA t rest)).1,
        (ihf (Token.op '&' :: toksA t rest)).2]
      have h2 := iht.2 (acc && evalG st f) rest hna
      rw [h2.1, h2.2]
      simp [Bool.and_assoc]
  | factorT f ihf =>
    constructor
    · intro rest hna
      simp only [toksA, evalG]
      simp only [parseT]
      rw [(ihf rest).1, (ihf rest).2]
      exact parseTLoop_end st (evalG st f) rest hna
    · intro acc rest hna
      simp only [toksA, evalG]
      simp only [parseTLoop]
      rw [(ihf rest).1, (ihf rest).2]
      exact parseTLoop_end st (acc && evalG st f) rest hna
  | notF f ihf =>
    intro rest
    simp only [toksA, evalG]
    simp only [parseF]
    rw [(ihf rest).1, (ihf rest).2]
    exact ⟨rfl, rfl⟩
  | parenF e ihe =>
    intro rest
    simp only [toksA, evalG]
    simp only [parseF]
    have h1 := ihe.1 (Token.op ')' :: rest)
      (by intro r' hcon; simp at hcon) (by intro r' hcon; simp at hcon)
    split
    · rename_i v r1 hr1 r2 hr1b heq
      have h3 : Token.op ')' :: hr1 = Token.op ')' :: rest := by
        rw [← hr1b, h1.2]
      injection h3 with _ h4
      exact ⟨h1.1, h4⟩
    · rename_i r1 hr1 hne
      have hlen : (Token.op ')' :: rest).length ≤
          (toksA e (Token.op ')' :: rest)).length := by
        have hb := (parseE st (toksA e (Token.op ')' :: rest))).2.2
        rw [h1.2] at hb
        exact hb
      exact absurd (proof_irrel_heq _ _) (hne rest hlen h1.2)
  | varF s =>
    intro rest
    simp only [toksA, evalG]
    simp only [parseF]
    exact ⟨trivial, trivial⟩
  | varTrueF s =>
    intro rest
    simp only [toksA, evalG]
    simp only [parseF]
    exact ⟨trivial, trivial⟩
  | varFalseF s =>
    intro rest
    simp only [toksA, evalG]
    simp only [parseF]
    exact ⟨trivial, trivial⟩

theorem evaluate_printG (st : List (String × Bool)) (e : Gram GLvl.expr)
    (hwf : wfG e = true) :
    evaluate (String.mk (printG e)) st = evalG st e := by
  have htok := tokenize_printG e [] hwf (Or.inl rfl)
  rw [List.append_nil] at htok
  have htok0 : tokenize ([] : List Char) = [] := by simp only [tokenize]
  rw [htok0, List.append_nil] at htok
  simp only [evaluate]
  rw [htok]
  have hA : toksG e = toksA e [] := by rw [toksA_eq e [], List.append_nil]
  rw [hA]
  exact ((parserOK st e).1 [] (by intro r' hc; simp at hc)
    (by intro r' hc; simp at hc)).1

/-- C4: `evaluate` implements the recursive-descent grammar
`Expr := Term ('|' Term)*`, `Term := Factor ('&' Factor)*`,
`Factor := '!' Factor | '(' Expr ')' | Ident ('=' bool)?` with the
specified precedence and semantics: for every well-formed sentence `e` of
the grammar, evaluating its printed string equals the grammar semantics
`evalG` (where `|` is disjunction, `&` conjunction, `!` negation); an
identifier alone evaluates to "the variable is true", `x=false` evaluates
to "the variable is false", and a variable absent from the state reads as
false. -/
theorem c4_evaluate_grammar (st : List (String × Bool)) (e : Gram GLvl.expr)
    (hwf : wfG e = true) (x : String) (hx : validIdent x = true)
    (habsent : st.lookup x = none) :
    evaluate (String.mk (printG e)) st = evalG st e ∧
    evaluate x st = lookupVar st x ∧
    evaluate (x ++ "=false") st = !lookupVar st x ∧
    lookupVar st x = false :=
  ⟨evaluate_printG st e hwf,
   evaluate_printG st (Gram.termE (Gram.factorT (Gram.varF x)))
     (by simpa only [wfG] using hx),
   evaluate_printG st (Gram.termE (Gram.factorT (Gram.varFalseF x)))
     (by simpa only [wfG] using hx),
   by simp [lookupVar, habsent]⟩

/-- A sample grammar sentence printing to `"a|b=false&!c"`. -/
def c4SampleExpr : Gram GLvl.expr :=
  Gram.orE (Gram.factorT (Gram.varF "a"))
    (Gram.termE (Gram.andT (Gram.varFalseF "b")
      (Gram.factorT (Gram.notF (Gram.varF "c")))))

theorem c4_evaluate_grammar_witness :
    evaluate (String.mk (printG c4SampleExpr))
      [("a", false), ("b", false), ("c", false)] = true ∧
    String.mk (printG c4SampleExpr) = "a|b=false&!c" ∧
    evaluate "d" [("a", false), ("b", false), ("c", false)] = false := by
  have h := c4_evaluate_grammar [("a", false), ("b", false), ("c", false)]
    c4SampleExpr (by decide) "d" (by decide) (by decide)
  refine ⟨?_, by decide, ?_⟩
  · rw [h.1]
    decide
  · rw [h.2.1, h.2.2.2]
